import Mathlib

/-!
A verification development for the Khan/error-monitor-db service.

The Python sources (`models.py`, `server.py`, `detect_anomalies.py`,
`report_anomalies.py`) are shallowly embedded below:

* strings are `List Char` (Python 2 byte strings over their code points;
  MD5 hashing goes through an explicit UTF-8 encoder, matching
  `.encode('utf-8')` on the title and byte-string hashing elsewhere);
* the Redis instance is a `Store` record of typed finite maps, one field
  per family of keys (sorted sets, hashes, plain strings, sets);
  JSON-valued keys (`error:<key>`, the `stacks:msgs` hash) store the
  parsed value directly, the `json.dumps`/`json.loads` round trip being
  the identity on them;
* code that can raise (`KeyError`, `IndexError`, `int(...)`,
  `json.loads(None)`) is embedded in `Except (List Char)`;
* floats are idealised as exact reals (`ℝ`) where the Python uses
  float/Decimal arithmetic, and Redis scores as `ℚ`;
* key TTLs (`r.expire`) are not modelled: no claim below is about the
  passage of time, and every claim's store state quantifies over states
  with keys already present or absent.
-/

namespace EMDB

set_option maxRecDepth 100000

/-! ## Basic string utilities -/

/-- The characters of a string literal, our model of Python strings. -/
def lc (s : String) : List Char := s.data

/-- Decimal digits of a natural number, most significant first (the fuel
is structural so the kernel can evaluate; any fuel > number of digits
gives the same value). -/
def natToCharsAux : ℕ → ℕ → List Char
  | 0, _ => []
  | fuel + 1, n =>
    if n < 10 then [Char.ofNat (48 + n)]
    else natToCharsAux fuel (n / 10) ++ [Char.ofNat (48 + n % 10)]

/-- Decimal digits of a natural number, most significant first. -/
def natToChars (n : ℕ) : List Char := natToCharsAux (n + 1) n

/-- Python `str()` of an integer. -/
def intToChars (i : ℤ) : List Char :=
  if i < 0 then '-' :: natToChars i.natAbs else natToChars i.toNat

/-- Python `int()` on a string: an optional sign followed by at least one
decimal digit (surrounding whitespace is not modelled); `none` models the
`ValueError` raised on anything else. -/
def pyInt (s : List Char) : Option ℤ :=
  let (sign, digits) :=
    match s with
    | '-' :: rest => ((-1 : ℤ), rest)
    | '+' :: rest => ((1 : ℤ), rest)
    | _ => ((1 : ℤ), s)
  if digits = [] ∨ ¬ digits.all Char.isDigit then none
  else some (sign * (digits.foldl (fun acc c => 10 * acc + (c.toNat - 48)) 0 : ℕ))

/-- Python list indexing `l[i]` (negative indices wrap once); `none` models
the `IndexError` raised when out of range. -/
def pyListGet (l : List α) (i : ℤ) : Option α :=
  if 0 ≤ i then l.get? i.toNat
  else if i.natAbs ≤ l.length then l.get? (l.length - i.natAbs)
  else none

/-- Strict lexicographic order on strings by code point (Python 2 `<`). -/
def lexLt : List Char → List Char → Bool
  | [], [] => false
  | [], _ :: _ => true
  | _ :: _, [] => false
  | a :: as, b :: bs =>
    if a.toNat < b.toNat then true
    else if b.toNat < a.toNat then false
    else lexLt as bs

/-- `a ≤ b` lexicographically (Python 2 string comparison). -/
def lexLe (a b : List Char) : Bool := !(lexLt b a)

/-! ## MD5 (RFC 1321), executable over byte lists -/

/-- Truncation to 32 bits. -/
def m32 (n : ℕ) : ℕ := n % 4294967296

/-- Bitwise complement on 32-bit values (`x < 2^32`). -/
def bnot32 (x : ℕ) : ℕ := 4294967295 - x

/-- 32-bit left rotation. -/
def rotl (x s : ℕ) : ℕ := m32 (x <<< s) ||| (x >>> (32 - s))

/-- The table `K[i] = floor(2^32 * |sin(i+1)|)` of MD5 round constants. -/
def md5K : List ℕ :=
  [0xd76aa478, 0xe8c7b756, 0x242070db, 0xc1bdceee,
   0xf57c0faf, 0x4787c62a, 0xa8304613, 0xfd469501,
   0x698098d8, 0x8b44f7af, 0xffff5bb1, 0x895cd7be,
   0x6b901122, 0xfd987193, 0xa679438e, 0x49b40821,
   0xf61e2562, 0xc040b340, 0x265e5a51, 0xe9b6c7aa,
   0xd62f105d, 0x02441453, 0xd8a1e681, 0xe7d3fbc8,
   0x21e1cde6, 0xc33707d6, 0xf4d50d87, 0x455a14ed,
   0xa9e3e905, 0xfcefa3f8, 0x676f02d9, 0x8d2a4c8a,
   0xfffa3942, 0x8771f681, 0x6d9d6122, 0xfde5380c,
   0xa4beea44, 0x4bdecfa9, 0xf6bb4b60, 0xbebfbc70,
   0x289b7ec6, 0xeaa127fa, 0xd4ef3085, 0x04881d05,
   0xd9d4d039, 0xe6db99e5, 0x1fa27cf8, 0xc4ac5665,
   0xf4292244, 0x432aff97, 0xab9423a7, 0xfc93a039,
   0x655b59c3, 0x8f0ccc92, 0xffeff47d, 0x85845dd1,
   0x6fa87e4f, 0xfe2ce6e0, 0xa3014314, 0x4e0811a1,
   0xf7537e82, 0xbd3af235, 0x2ad7d2bb, 0xeb86d391]

/-- Per-round left-rotation amounts. -/
def md5S : List ℕ :=
  [7, 12, 17, 22, 7, 12, 17, 22, 7, 12, 17, 22, 7, 12, 17, 22,
   5, 9, 14, 20, 5, 9, 14, 20, 5, 9, 14, 20, 5, 9, 14, 20,
   4, 11, 16, 23, 4, 11, 16, 23, 4, 11, 16, 23, 4, 11, 16, 23,
   6, 10, 15, 21, 6, 10, 15, 21, 6, 10, 15, 21, 6, 10, 15, 21]

/-- The nonlinear function of round `i`. -/
def md5F (i b c d : ℕ) : ℕ :=
  if i < 16 then (b &&& c) ||| (bnot32 b &&& d)
  else if i < 32 then (d &&& b) ||| (bnot32 d &&& c)
  else if i < 48 then b ^^^ c ^^^ d
  else c ^^^ (b ||| bnot32 d)

/-- The message-word index consulted in round `i`. -/
def md5G (i : ℕ) : ℕ :=
  if i < 16 then i
  else if i < 32 then (5 * i + 1) % 16
  else if i < 48 then (3 * i + 5) % 16
  else (7 * i) % 16

/-- One MD5 round on the state `(A, B, C, D)`. -/
def md5Step (M : List ℕ) (s : ℕ × ℕ × ℕ × ℕ) (i : ℕ) : ℕ × ℕ × ℕ × ℕ :=
  match s with
  | (a, b, c, d) =>
    let f := m32 (md5F i b c d + a + md5K.getD i 0 + M.getD (md5G i) 0)
    (d, m32 (b + rotl f (md5S.getD i 0)), b, c)

/-- Process one 16-word chunk, adding the result into the running state. -/
def md5Chunk (s : ℕ × ℕ × ℕ × ℕ) (M : List ℕ) : ℕ × ℕ × ℕ × ℕ :=
  match s, (List.range 64).foldl (md5Step M) s with
  | (a, b, c, d), (a', b', c', d') =>
    (m32 (a + a'), m32 (b + b'), m32 (c + c'), m32 (d + d'))

/-- `count` little-endian bytes of `n`. -/
def leBytes (n : ℕ) : ℕ → List ℕ
  | 0 => []
  | k + 1 => n % 256 :: leBytes (n / 256) k

/-- Split a byte list into 64-byte chunks (structural fuel; any fuel
≥ the length gives the same value). -/
def toChunksAux : ℕ → List ℕ → List (List ℕ)
  | 0, _ => []
  | fuel + 1, l => if l = [] then [] else l.take 64 :: toChunksAux fuel (l.drop 64)

/-- Split a byte list into 64-byte chunks. -/
def toChunks (l : List ℕ) : List (List ℕ) := toChunksAux l.length l

/-- Interpret a 64-byte chunk as 16 little-endian 32-bit words. -/
def toWords : List ℕ → List ℕ
  | b0 :: b1 :: b2 :: b3 :: rest =>
    (b0 + 256 * b1 + 65536 * b2 + 16777216 * b3) :: toWords rest
  | _ => []

/-- MD5 padding: a 1 bit, zeros to 56 mod 64, then the 64-bit bit length. -/
def md5Pad (msg : List ℕ) : List ℕ :=
  msg ++ 0x80 :: List.replicate ((119 - msg.length % 64) % 64) 0
      ++ leBytes (8 * msg.length) 8

/-- The 16-byte MD5 digest of a byte list. -/
def md5Bytes (msg : List ℕ) : List ℕ :=
  match (toChunks (md5Pad msg)).foldl (fun s ch => md5Chunk s (toWords ch))
      (0x67452301, 0xefcdab89, 0x98badcfe, 0x10325476) with
  | (a, b, c, d) => leBytes a 4 ++ leBytes b 4 ++ leBytes c 4 ++ leBytes d 4

/-- A hex digit character, lowercase. -/
def hexDigitChar (n : ℕ) : Char :=
  if n < 10 then Char.ofNat (48 + n) else Char.ofNat (87 + n)

/-- UTF-8 bytes of one character. -/
def charUtf8 (c : Char) : List ℕ :=
  let n := c.toNat
  if n < 128 then [n]
  else if n < 2048 then [192 + n / 64, 128 + n % 64]
  else if n < 65536 then [224 + n / 4096, 128 + n / 64 % 64, 128 + n % 64]
  else [240 + n / 262144, 128 + n / 4096 % 64, 128 + n / 64 % 64, 128 + n % 64]

/-- UTF-8 encoding of a string (`.encode('utf-8')`). -/
def utf8Bytes (cs : List Char) : List ℕ := (cs.map charUtf8).flatten

/-- `md5(...).hexdigest()` of a string, as 32 hex characters. -/
def md5Hex (cs : List Char) : List Char :=
  (md5Bytes (utf8Bytes cs)).foldr
    (fun b acc => hexDigitChar (b / 16) :: hexDigitChar (b % 16) :: acc) []

/-! ## Message parsing (`models._parse_message` and helpers) -/

/-- `re.sub(r'\d+', '%%', s)`, character by character: `prevDigit` says
whether the previous character was a digit (so a digit continues the same
`%%` run instead of opening a new one). -/
def digitSubGo (prevDigit : Bool) : List Char → List Char
  | [] => []
  | c :: cs =>
    if c.isDigit then
      (if prevDigit then [] else ['%', '%']) ++ digitSubGo true cs
    else c :: digitSubGo false cs

/-- `re.sub(r'\d+', '%%', s)`: replace each maximal run of decimal digits
with the literal `%%`. -/
def digitSub (t : List Char) : List Char := digitSubGo false t

/-- One frame of a parsed stack trace.  `lineno` is kept as the matched
digit string, as in the source (`match.groups()` are strings). -/
structure StackFrame where
  filename : List Char
  lineno : List Char
  function : List Char
deriving DecidableEq, Repr

/-- `[a-f0-9]`, the character class of `_VERSION_PATH_PREFIX_RE`. -/
def isHexLower (c : Char) : Bool := c.isDigit || (97 ≤ c.toNat && c.toNat ≤ 102)

/-- Does `l` end with a match of `\d{4}-\d{4}-[a-f0-9]{12}\.\d+/` ?
(Checked from the end; each piece is forced, so this is equivalent to the
existence of a decomposition.) -/
def endsVerPat (l : List Char) : Bool :=
  match l.reverse with
  | '/' :: r1 =>
    let ds := r1.takeWhile Char.isDigit
    let r2 := r1.drop ds.length
    decide (ds ≠ []) &&
    (match r2 with
     | '.' :: r3 =>
       (r3.take 12).all isHexLower && decide (12 ≤ r3.length) &&
       (match r3.drop 12 with
        | '-' :: r4 =>
          (r4.take 4).all Char.isDigit && decide (4 ≤ r4.length) &&
          (match r4.drop 4 with
           | '-' :: r5 => (r5.take 4).all Char.isDigit && decide (4 ≤ r5.length)
           | _ => false)
        | _ => false)
     | _ => false)
  | _ => false

/-- `_VERSION_PATH_PREFIX_RE.sub('', filename)`: strip the longest prefix
ending in a versioned-deploy path component (`^.*\d{4}-\d{4}-[a-f0-9]{12}\.\d+/`,
with `.*` greedy). -/
def versionPathStrip (cs : List Char) : List Char :=
  match (List.range (cs.length + 1)).reverse.find? (fun j => endsVerPat (cs.take j)) with
  | some j => cs.drop j
  | none => cs

/-- `re.match(r'  File "([^"]*)", line (\d*), in (.*)', line)`, with the
deploy-version path stripped from the filename.  Each regex piece is
forced (the character classes exclude the following literal), so a
deterministic scan is equivalent. -/
def parseFileLine (l : List Char) : Option StackFrame :=
  if (lc "  File \"").isPrefixOf l then
    let rest := l.drop 8
    let filename := rest.takeWhile (fun c => c.toNat ≠ 34)
    match rest.drop filename.length with
    | [] => none  -- no closing quote
    | _ :: rest3 =>
      if (lc ", line ").isPrefixOf rest3 then
        let rest4 := rest3.drop 7
        let lineno := rest4.takeWhile Char.isDigit
        let rest5 := rest4.drop lineno.length
        if (lc ", in ").isPrefixOf rest5 then
          some ⟨versionPathStrip filename, lineno, rest5.drop 5⟩
        else none
      else none
  else none

/-- The frame contributed by one message line after the first: `Traceback`
lines are skipped, and only lines starting `"  File "` that match the
frame pattern contribute. -/
def lineFrame (l : List Char) : Option StackFrame :=
  if (lc "Traceback").isPrefixOf l then none
  else if (lc "  File ").isPrefixOf l then parseFileLine l
  else none

/-- An error definition (`error_def`), §4.2 of the spec. -/
structure ErrorDef where
  key : List Char
  title : List Char
  status : List Char
  level : List Char
  id0 : List Char
  id1 : Option (List Char)
  id2 : Option (List Char)
  id3 : Option (List Char)
deriving DecidableEq, Repr

/-- The promotion marker stripped from titles. -/
def promoPfx : List Char := lc "[promoted from WARNING] "

/-- Strip the promotion marker from a title when present. -/
def stripPromo (t : List Char) : List Char :=
  if promoPfx.isPrefixOf t then t.drop promoPfx.length else t

/-- The title of a split message: the first line with the promotion marker
stripped, or the last line if that is empty. -/
def msgTitle (msgLines : List (List Char)) : List Char :=
  let t1 := stripPromo (msgLines.headD [])
  if t1 = [] then msgLines.getLastD [] else t1

/-- The characters `( [ { ' "` at which the Memcache capture stops
(written by code point to keep the source ASCII-clean). -/
def isStopper (c : Char) : Bool := [40, 91, 123, 39, 34].contains c.toNat

def memcachePfx : List Char := lc "Memcache set failed for "

/-- The group of `^(Memcache set failed for [^([{'"]*)` when the title
matches (greedy, so the capture is the maximal stopper-free run). -/
def memcacheCapture (t : List Char) : Option (List Char) :=
  if memcachePfx.isPrefixOf t then
    some (memcachePfx ++ (t.drop memcachePfx.length).takeWhile (fun c => !isStopper c))
  else none

/-- `_NON_COMBINABLE_ERRORS`, searched in declared order: `some g` when a
rule matches, with `g` the value for `id3` (`m.group(1)` if the rule
captures, else `None`). -/
def nonCombinableResult (t : List Char) : Option (Option (List Char)) :=
  if lc "object has no attribute" <:+: t then some none
  else if (lc "Error in signature for").isPrefixOf t then some none
  else (memcacheCapture t).map some

/-- `"%s" % id` with `None` rendered as the literal string `None`. -/
def optStr : Option (List Char) → List Char
  | none => lc "None"
  | some s => s

/-- `models._parse_message(message, status, level)`: returns the error
definition, the parsed stack and the stack key. -/
def parseMessage (message status level : List Char) :
    ErrorDef × List StackFrame × List Char :=
  let msgLines := message.splitOn '\n'
  let title := msgTitle msgLines
  let idPfx := status ++ ' ' :: level ++ [' ']
  let id0 := idPfx ++ digitSub title
  let ids : Option (List Char) × Option (List Char) × Option (List Char) :=
    match nonCombinableResult title with
    | some g => (none, none, g)
    | none =>
      let ws := id0.splitOn ' '
      (some (idPfx ++ List.intercalate [' '] ((ws.drop 2).take 3)),
       some (idPfx ++ List.intercalate [' '] (ws.drop (ws.length - 3))),
       none)
  let idStr := id0 ++ optStr ids.1 ++ optStr ids.2.1 ++ optStr ids.2.2
  let key := (md5Hex idStr).take 8
  let stack := (msgLines.drop 1).filterMap lineFrame
  let stackKey := md5Hex (List.intercalate ['|']
      (stack.map fun f => f.filename ++ ':' :: f.function))
  ({ key := key, title := title, status := status, level := level,
     id0 := id0, id1 := ids.1, id2 := ids.2.1, id3 := ids.2.2 }, stack, stackKey)

/-! ## The store

One record of typed finite maps models the Redis instance, one field per
family of keys.  Sorted sets are association lists member ↦ score (range
reads sort them, so stored order is immaterial); hashes are association
lists field ↦ value.  `error:<key>` payloads and the `stacks:msgs` hash
store parsed values (the `json.dumps`/`json.loads` round trip is the
identity on them), and `route:...:num_seen` strings store the integer
written by the ingestor. -/

/-- Point update of a function-backed map. -/
def updFn [DecidableEq κ] (f : κ → α) (k : κ) (v : α) : κ → α :=
  fun k' => if k' = k then v else f k'

/-- First-match association-list lookup. -/
def alGet [DecidableEq κ] (l : List (κ × β)) (k : κ) : Option β :=
  (l.find? fun p => decide (p.1 = k)).map (·.2)

/-- Python `dict(pairs)[k]` semantics: the *last* binding wins. -/
def alGetLast [DecidableEq κ] (l : List (κ × β)) (k : κ) : Option β :=
  alGet l.reverse k

/-- Hash-set on an association list: overwrite the field or append it. -/
def alSet [DecidableEq κ] (l : List (κ × β)) (k : κ) (v : β) : List (κ × β) :=
  if (alGet l k).isSome then l.map fun p => if p.1 = k then (p.1, v) else p
  else l ++ [(k, v)]

/-- `ZINCRBY key 1 member`. -/
def zincr (l : List (List Char × ℚ)) (m : List Char) : List (List Char × ℚ) :=
  if (alGet l m).isSome then l.map fun p => if p.1 = m then (p.1, p.2 + 1) else p
  else l ++ [(m, 1)]

/-- `ZADD key score member` (overwrite or append). -/
def zadd (l : List (List Char × ℚ)) (score : ℚ) (m : List Char) :
    List (List Char × ℚ) :=
  if (alGet l m).isSome then l.map fun p => if p.1 = m then (p.1, score) else p
  else l ++ [(m, score)]

/-- The Redis instance. -/
structure Store where
  errorDefs : List Char → Option ErrorDef
  errordefIds : Fin 4 → List Char → Option (List Char)
  zsets : List Char → List (List Char × ℚ)
  hashes : List Char → List (List Char × List Char)
  stackMsgs : List Char → List (List Char × List StackFrame)
  strs : List Char → Option (List Char)
  ssets : List Char → List (List Char)
  routeCounts : List Char → Option ℤ

def Store.setErrorDef (s : Store) (k : List Char) (v : Option ErrorDef) : Store :=
  { s with errorDefs := updFn s.errorDefs k v }

def Store.setId (s : Store) (i : Fin 4) (idv k : List Char) : Store :=
  let f := fun j => if j = i then updFn (s.errordefIds i) idv (some k) else s.errordefIds j
  { s with errordefIds := f }

def Store.zincrby (s : Store) (key member : List Char) : Store :=
  { s with zsets := updFn s.zsets key (zincr (s.zsets key) member) }

def Store.zaddScore (s : Store) (key : List Char) (score : ℚ) (member : List Char) : Store :=
  { s with zsets := updFn s.zsets key (zadd (s.zsets key) score member) }

def Store.zremMember (s : Store) (key member : List Char) : Store :=
  let kept := (s.zsets key).filter fun p => decide (p.1 ≠ member)
  { s with zsets := updFn s.zsets key kept }

def Store.zremRangeByScore (s : Store) (key : List Char) (lo hi : ℚ) : Store :=
  let kept := (s.zsets key).filter fun p => decide (p.2 < lo ∨ hi < p.2)
  { s with zsets := updFn s.zsets key kept }

def Store.hset (s : Store) (key field value : List Char) : Store :=
  { s with hashes := updFn s.hashes key (alSet (s.hashes key) field value) }

/-- `HINCRBY key field 1` (an unparsable existing value, which raises in
Redis, is treated as 0). -/
def Store.hincr (s : Store) (key field : List Char) : Store :=
  let cur := ((alGet (s.hashes key) field).bind pyInt).getD 0
  s.hset key field (intToChars (cur + 1))

def Store.hsetStack (s : Store) (key field : List Char) (v : List StackFrame) : Store :=
  { s with stackMsgs := updFn s.stackMsgs key (alSet (s.stackMsgs key) field v) }

def Store.setStr (s : Store) (key : List Char) (v : Option (List Char)) : Store :=
  { s with strs := updFn s.strs key v }

def Store.sadd (s : Store) (key member : List Char) : Store :=
  let v := if member ∈ s.ssets key then s.ssets key else s.ssets key ++ [member]
  { s with ssets := updFn s.ssets key v }

def Store.setRouteCount (s : Store) (key : List Char) (v : ℤ) : Store :=
  { s with routeCounts := updFn s.routeCounts key (some v) }

/-- Insertion of one element into a sorted list (`le` total). -/
def insSorted (le : α → α → Bool) (x : α) : List α → List α
  | [] => [x]
  | y :: ys => if le x y then x :: y :: ys else y :: insSorted le x ys

/-- Insertion sort (structural, so the kernel can evaluate it; which
stable sort Redis uses is immaterial, members of a sorted set being
distinct). -/
def insSort (le : α → α → Bool) : List α → List α
  | [] => []
  | x :: xs => insSorted le x (insSort le xs)

/-- Redis range slicing: inclusive `start..stop`, negative indices from
the end. -/
def redisSlice (l : List α) (start stop : ℤ) : List α :=
  let n : ℤ := l.length
  let s := if start < 0 then max 0 (n + start) else start
  let e := if stop < 0 then n + stop else stop
  if e < s then [] else (l.drop s.toNat).take (e - s + 1).toNat

/-- The comparison `ZREVRANGE` sorts by: score descending, ties by member
descending. -/
def zrevLe (a b : List Char × ℚ) : Bool :=
  decide (b.2 < a.2) || (decide (a.2 = b.2) && lexLe b.1 a.1)

/-- The comparison `ZRANGE` sorts by: score ascending, ties by member
ascending. -/
def zascLe (a b : List Char × ℚ) : Bool :=
  decide (a.2 < b.2) || (decide (a.2 = b.2) && lexLe a.1 b.1)

/-- `ZREVRANGE key start stop WITHSCORES`. -/
def zrevrangeWS (s : Store) (key : List Char) (start stop : ℤ) :
    List (List Char × ℚ) :=
  redisSlice (insSort zrevLe (s.zsets key)) start stop

/-- `ZRANGE key start stop WITHSCORES`. -/
def zrangeWS (s : Store) (key : List Char) (start stop : ℤ) :
    List (List Char × ℚ) :=
  redisSlice (insSort zascLe (s.zsets key)) start stop

/-! ## In-process caches and cached error definitions -/

/-- `ERROR_LEVELS` from `models.py`. -/
def ERROR_LEVELS : List (List Char) :=
  [lc "", lc "", lc "", lc "ERROR", lc "CRITICAL"]

/-- An error def as held in `_error_def_cache`: the stored def plus the
`level_readable` field added when it is cached. -/
structure CachedDef where
  errorDef : ErrorDef
  levelReadable : List Char
deriving DecidableEq, Repr

/-- The id fields of an error def, indexed as `_ERROR_ID_KEYS`. -/
def ErrorDef.idN (d : ErrorDef) : Fin 4 → Option (List Char)
  | 0 => some d.id0
  | 1 => d.id1
  | 2 => d.id2
  | 3 => d.id3

/-- The full server state: the Redis instance plus the two in-process
caches (`_error_def_cache`, `_error_id_cache`; the id cache is keyed by
the raw id value, which may be `None`). -/
structure St where
  redis : Store
  defCache : List Char → Option CachedDef
  idCache : Fin 4 → Option (List Char) → Option (List Char)

/-- Computations that can raise a Python exception (carried as a message). -/
abbrev Exc (α : Type) := Except (List Char) α

/-- `ERROR_LEVELS[int(level)]`, `none` = the exception Python would raise. -/
def levelReadableOf (level : List Char) : Option (List Char) :=
  (pyInt level).bind (pyListGet ERROR_LEVELS)

/-- `models._get_cached_error_def`: cache hit, or read `error:<key>` from
Redis, attach `level_readable`, and populate both caches. -/
def getCachedErrorDef (st : St) (k : List Char) : Exc (Option CachedDef × St) :=
  match st.defCache k with
  | some c => .ok (some c, st)
  | none =>
    match st.redis.errorDefs k with
    | none => .ok (none, st)
    | some d =>
      match levelReadableOf d.level with
      | none => .error (lc "ERROR_LEVELS[int(level)] failed")
      | some lr =>
        let c : CachedDef := ⟨d, lr⟩
        .ok (some c,
          { st with
            defCache := updFn st.defCache k (some c),
            idCache := fun i => updFn (st.idCache i) (d.idN i) (some k) })

/-- First id (in `_ERROR_ID_KEYS` order) that is non-falsy and resolves
through `f`. -/
def findIdIn (f : Fin 4 → List Char → Option (List Char)) (d : ErrorDef) :
    Option (List Char) :=
  ([0, 1, 2, 3] : List (Fin 4)).findSome? fun i =>
    match d.idN i with
    | none => none
    | some v => if v = [] then none else f i v

/-- `models._find_error_by_def`: key hit in cache or Redis, then the id
caches, then the `errordef:*` hashes. -/
def findErrorByDef (st : St) (d : ErrorDef) : Option (List Char) :=
  if (st.defCache d.key).isSome || (st.redis.errorDefs d.key).isSome then some d.key
  else
    match findIdIn (fun i v => st.idCache i (some v)) d with
    | some k => some k
    | none => findIdIn (fun i v => st.redis.errordefIds i v) d

/-- `models._create_or_update_error` (the TTL bump is not modelled). -/
def createOrUpdateError (st : St) (d : ErrorDef) : List Char × St :=
  let found := findErrorByDef st d
  let (key, toPut) :=
    match found with
    | none => (d.key, d)
    | some k =>
      match st.redis.errorDefs k with
      | some existing =>
        (k, { existing with title := d.title, status := d.status, level := d.level })
      | none => (k, { d with key := k })
  let redis1 := st.redis.setErrorDef key (some toPut)
  let redis2 := ([0, 1, 2, 3] : List (Fin 4)).foldl
    (fun s i =>
      match toPut.idN i with
      | none => s
      | some v => if v = [] then s else s.setId i v key)
    redis1
  (key, { st with redis := redis2 })

/-! ## Recording occurrences (`models.py`) -/

/-- `URI_BLACKLIST`. -/
def uriBlacklist : List (List Char) := [lc "/api/internal/translate/lint_poentry"]

/-- `_CACHE_BUST_QUERY_PARAM_RE.sub('', resource)`: remove every
`_=<digits>` that directly follows `?` or `&`. -/
def cacheBustGo : ℕ → Option Char → List Char → List Char
  | 0, _, _ => []
  | _ + 1, _, [] => []
  | fuel + 1, prev, c :: rest =>
    if (prev = some '?' ∨ prev = some '&') ∧ c = '_' then
      match rest with
      | '=' :: r2 =>
        let ds := r2.takeWhile Char.isDigit
        if ds = [] then c :: cacheBustGo fuel (some c) rest
        else cacheBustGo fuel (some (ds.getLastD c)) (r2.drop ds.length)
      | _ => c :: cacheBustGo fuel (some c) rest
    else c :: cacheBustGo fuel (some c) rest

def cacheBustSub (resource : List Char) : List Char :=
  cacheBustGo resource.length none resource

/-- `models._update_error_details`: the shared write path of both
recording entry points.  Returns the resolved error key, or `none` (and
an unchanged state) for a blacklisted resource. -/
def updateErrorDetails (st : St)
    (version status level resource ip route module message : List Char) :
    Option (List Char) × St :=
  if uriBlacklist.any (fun u => u.isPrefixOf resource) then (none, st)
  else
    let (d, stack, stackKey) := parseMessage message status level
    let (errorKey, st1) := createOrUpdateError st d
    let kp := lc "ver:" ++ version ++ lc ":error:" ++ errorKey
    let resource2 := cacheBustSub resource
    let r := st1.redis
    let r := r.zincrby (kp ++ lc ":ips") ip
    let r := r.hsetStack (kp ++ lc ":stacks:msgs") stackKey stack
    let r := r.zincrby (kp ++ lc ":stacks:" ++ route ++ lc ":counts") stackKey
    let r := r.zincrby (kp ++ lc ":routes") route
    let r := r.zincrby (kp ++ lc ":uris:" ++ route) resource2
    let r := r.zincrby (kp ++ lc ":modules") module
    let r := r.zincrby (lc "ver:" ++ version ++ lc ":errors") errorKey
    let r := r.zincrby (errorKey ++ lc ":versions") version
    (some errorKey, { st1 with redis := r })

/-- `models.record_monitoring_data_received`. -/
def recordMonitoringDataReceived (st : St) (version : List Char) (minute : ℤ) : St :=
  { st with redis :=
      st.redis.hset (lc "ver:MON_" ++ version ++ lc ":seen") (intToChars minute) (lc "1") }

/-- `models.check_monitoring_data_received`. -/
def checkMonitoringDataReceived (st : St) (version : List Char) (minute : ℤ) : Bool :=
  (alGet (st.redis.hashes (lc "ver:MON_" ++ version ++ lc ":seen")) (intToChars minute)).isSome

/-- `models.record_occurrence_during_monitoring`. -/
def recordOccurrenceDuringMonitoring (st : St) (version : List Char) (minute : ℤ)
    (status level resource ip route module message : List Char) : St :=
  match updateErrorDetails st (lc "MON_" ++ version) status level resource ip
      route module message with
  | (none, st') => st'
  | (some errorKey, st') =>
    let ebm := lc "ver:MON_" ++ version ++ lc ":errors_by_minute:" ++ intToChars minute
    let ipk := lc "ver:MON_" ++ version ++ lc ":ip_" ++ ip ++ lc ":errors_by_minute:"
        ++ intToChars minute
    let r := st'.redis.zincrby ebm errorKey
    let r := r.zincrby ipk errorKey
    let numIpErrors := alGet (r.zsets ipk) errorKey
    let r :=
      if numIpErrors = some 1 then
        r.zincrby (lc "ver:MON_" ++ version ++ lc ":unique_errors_by_minute:"
            ++ intToChars minute) errorKey
      else r
    { st' with redis := r }

/-- `models.record_occurrence_from_errors`.  `nowExpiry` is the value of
`_get_log_hour_int_expiry()` (the clock input, `YYYYMMDDHH` of now − TTL).
`int(log_hour.replace("_", ""))` raises on a malformed hour, hence `Exc`. -/
def recordOccurrenceFromErrors (nowExpiry : ℤ) (st : St) (version logHour : List Char)
    (status level resource ip route module message : List Char) :
    Exc ((Option (List Char) × Bool) × St) :=
  match updateErrorDetails st version status level resource ip route module message with
  | (none, st') => .ok ((none, false), st')
  | (some errorKey, st') =>
    let hsKey := lc "ver:" ++ version ++ lc ":error:" ++ errorKey ++ lc ":hours_seen"
    let r := st'.redis.hincr hsKey logHour
    let fsKey := lc "first_seen:" ++ errorKey
    let firstSeen := zrangeWS r fsKey 0 0
    let (isNew, r) :=
      if firstSeen = [] then (true, r)
      else (false, r.zremRangeByScore fsKey 0 nowExpiry)
    match pyInt (logHour.filter fun c => c ≠ '_') with
    | none => .error (lc "ValueError: int(log_hour)")
    | some logHourInt =>
      let r := r.zaddScore fsKey (logHourInt : ℚ) logHour
      let lsKey := lc "last_seen:" ++ errorKey
      let r :=
        -- Python 2: `log_hour > None` is true, so a missing value is updated
        if (match r.strs lsKey with
            | none => true
            | some cur => lexLt cur logHour) then
          r.setStr lsKey (some logHour)
        else r
      .ok ((some errorKey, isNew), { st' with redis := r })

/-! ## Monitoring reads (`models.py`) -/

/-- State-threaded `_get_cached_error_def` over a list of scored keys. -/
def defsLoop (st : St) : List (List Char × ℚ) →
    Exc (List (Option CachedDef × ℚ) × St)
  | [] => .ok ([], st)
  | (k, c) :: rest =>
    match getCachedErrorDef st k with
    | .error e => .error e
    | .ok (od, st') =>
      match defsLoop st' rest with
      | .error e => .error e
      | .ok (tail, st'') => .ok ((od, c) :: tail, st'')

/-- `models.get_monitoring_errors`: the top (unique) errors of a version's
minute cell, with defs resolved through the cache; keys whose def has
expired are dropped. -/
def getMonitoringErrors (st : St) (version : List Char) (minute : ℤ) :
    Exc (List (CachedDef × ℚ) × St) :=
  let keys := zrevrangeWS st.redis
    (lc "ver:MON_" ++ version ++ lc ":unique_errors_by_minute:" ++ intToChars minute)
    0 1000
  match defsLoop st keys with
  | .error e => .error e
  | .ok (pairs, st') =>
    .ok (pairs.filterMap (fun p => p.1.map fun c => (c, p.2)), st')

/-- `models.lookup_monitoring_error`. -/
def lookupMonitoringError (st : St) (version : List Char) (minute : ℤ)
    (errorKey : List Char) : Bool :=
  (alGet (st.redis.zsets
    (lc "ver:MON_" ++ version ++ lc ":errors_by_minute:" ++ intToChars minute))
    errorKey).isSome

/-! ## Error summaries (`models.py`) -/

/-- One `by_hour_and_version` entry (the count is the stored hash value,
a decimal string). -/
structure BHV where
  hour : List Char
  version : List Char
  count : List Char
deriving DecidableEq, Repr

/-- The summary returned by `get_error_summary_info` (`versions` is the
fetched member/score list; Python wraps it in `dict(...)`). -/
structure SummaryInfo where
  errorDef : CachedDef
  versions : List (List Char × ℚ)
  firstSeen : Option (List Char)
  lastSeen : Option (List Char)
  byHourAndVersion : List BHV
  count : ℤ

/-- `sum(int(count) for count in hash values)`; `none` = `ValueError`. -/
def hsTotal (hs : List (List Char × List Char)) : Option ℤ :=
  hs.foldr (fun p acc =>
    match pyInt p.2, acc with
    | some i, some a => some (i + a)
    | _, _ => none) (some 0)

/-- The per-version loop of `get_error_summary_info`: collect
`by_hour_and_version` rows and the total, pruning versions whose
`hours_seen` hash has expired from the `<key>:versions` sorted set. -/
def summaryLoop (st : St) (k : List Char) : List (List Char × ℚ) →
    Exc (List BHV × ℤ × St)
  | [] => .ok ([], 0, st)
  | (v, _) :: rest =>
    let hs := st.redis.hashes (lc "ver:" ++ v ++ lc ":error:" ++ k ++ lc ":hours_seen")
    if hs = [] then
      summaryLoop { st with redis := st.redis.zremMember (k ++ lc ":versions") v } k rest
    else
      match hsTotal hs with
      | none => .error (lc "ValueError: int(count)")
      | some t =>
        match summaryLoop st k rest with
        | .error e => .error e
        | .ok (tail, tailTotal, st') =>
          .ok ((hs.map fun p => BHV.mk p.1 v p.2) ++ tail, t + tailTotal, st')

/-- `models.get_error_summary_info`. -/
def getErrorSummaryInfo (st : St) (k : List Char) : Exc (Option SummaryInfo × St) :=
  match getCachedErrorDef st k with
  | .error e => .error e
  | .ok (none, st1) => .ok (none, st1)
  | .ok (some c, st1) =>
    let versions := zrevrangeWS st1.redis (k ++ lc ":versions") 0 (-1)
    match summaryLoop st1 k versions with
    | .error e => .error e
    | .ok (bhv, total, st2) =>
      -- the legacy `r.type != "zset"` guard deletes only non-zset values,
      -- which this model cannot hold, so it is a no-op here
      let fs := (zrangeWS st2.redis (lc "first_seen:" ++ k) 0 0).head?.map (·.1)
      .ok (some { errorDef := c, versions := versions, firstSeen := fs,
                  lastSeen := (st2.redis.strs (lc "last_seen:" ++ k)).bind
                    (fun s => if s = [] then none else some s),
                  byHourAndVersion := bhv, count := total }, st2)

/-- One route entry of `get_error_extended_information`. -/
structure RouteInfo where
  route : List Char
  count : ℚ
  urls : List (List Char × ℚ)
  stackEntries : List (ℚ × List StackFrame)

/-- Resolve each stack key of a route through the `stacks:msgs` hash
(`json.loads(None)` raises when the message is missing). -/
def stacksLoop (s : Store) (kp : List Char) :
    List (List Char × ℚ) → Exc (List (ℚ × List StackFrame))
  | [] => .ok []
  | (sk, cnt) :: rest =>
    match alGet (s.stackMsgs (kp ++ lc ":stacks:msgs")) sk with
    | none => .error (lc "TypeError: json.loads(None)")
    | some stk =>
      match stacksLoop s kp rest with
      | .error e => .error e
      | .ok tail => .ok ((cnt, stk) :: tail)

/-- `models.get_error_extended_information` (read-only). -/
def getErrorExtendedInformation (s : Store) (version k : List Char) :
    Exc (List RouteInfo) :=
  let kp := lc "ver:" ++ version ++ lc ":error:" ++ k
  let routes := zrevrangeWS s (kp ++ lc ":routes") 0 (-1)
  routes.foldr
    (fun (p : List Char × ℚ) acc =>
      match acc with
      | .error e => .error e
      | .ok tail =>
        match stacksLoop s kp (zrevrangeWS s (kp ++ lc ":stacks:" ++ p.1 ++ lc ":counts") 0 (-1)) with
        | .error e => .error e
        | .ok sts =>
          .ok ({ route := p.1, count := p.2,
                 urls := zrevrangeWS s (kp ++ lc ":uris:" ++ p.1) 0 (-1),
                 stackEntries := sts } :: tail))
    (.ok [])

/-! ## Request counting and log bookkeeping (`models.py`) -/

/-- `models.get_routes` (`list(r.smembers("seen_routes"))`). -/
def getRoutes (s : Store) : List (List Char) := s.ssets (lc "seen_routes")

/-- The key `route:<r>:status:<s>:log_hour:<h>:num_seen`. -/
def routeCountKey (route : List Char) (status : ℤ) (logHour : List Char) : List Char :=
  lc "route:" ++ route ++ lc ":status:" ++ intToChars status ++ lc ":log_hour:"
    ++ logHour ++ lc ":num_seen"

/-- `models.get_responses_count` (0 when the key is absent). -/
def getResponsesCount (s : Store) (route : List Char) (status : ℤ)
    (logHour : List Char) : ℤ :=
  (s.routeCounts (routeCountKey route status logHour)).getD 0

/-- The skip-leading-zeros loop of `get_hourly_responses_count`. -/
def hourlyLoop (s : Store) (route : List Char) (status : ℤ) :
    Bool → List (List Char) → List (List Char) × List ℤ
  | _, [] => ([], [])
  | seenInstance, h :: rest =>
    let c := getResponsesCount s route status h
    if ¬seenInstance ∧ c = 0 then hourlyLoop s route status seenInstance rest
    else
      let (ds, cs) := hourlyLoop s route status true rest
      (h :: ds, c :: cs)

/-- `models.get_hourly_responses_count`: the hours of `available_logs`
in range order, with per-hour counts, leading zeros skipped. -/
def getHourlyResponsesCount (s : Store) (route : List Char) (status : ℤ) :
    List (List Char) × List ℤ :=
  hourlyLoop s route status false ((zrangeWS s (lc "available_logs") 0 (-1)).map (·.1))

/-- `models.record_log_data_received`. -/
def recordLogDataReceived (s : Store) (logHour : List Char) : Store :=
  s.zaddScore (lc "available_logs") 1 logHour

/-- `models.check_log_data_received`. -/
def checkLogDataReceived (s : Store) (logHour : List Char) : Bool :=
  (alGet (s.zsets (lc "available_logs")) logHour).isSome

/-- `models.record_occurrences_from_requests`. -/
def recordOccurrencesFromRequests (s : Store) (logHour : List Char) (status : ℤ)
    (route : List Char) (numSeen : ℤ) : Store :=
  ((s.sadd (lc "seen_routes") route).sadd (lc "seen_statuses") (intToChars status)).setRouteCount
    (routeCountKey route status logHour) numSeen

/-! ## Baseline analysis (`server.py`) -/

/-- `server.poisson_cdf(actual, mean)`: `P(draw ≤ actual)` for a Poisson
variable with the given mean; 0 for negative `actual`.  The Decimal
arithmetic of the source is idealised as exact reals. -/
noncomputable def poissonCdf (actual : ℤ) (mean : ℝ) : ℝ :=
  if actual < 0 then 0
  else ∑ i ∈ Finset.range (actual.toNat + 1), Real.exp (-mean) * mean ^ i / i.factorial

open Classical in
/-- `server._count_is_elevated_probability(historical_counts, recent_count)`:
the expected count and the probability the recent count is elevated. -/
noncomputable def countIsElevatedProbability (historicalCounts : List ℝ)
    (recentCount : ℝ) : ℝ × ℝ :=
  if historicalCounts = [] then (0, 0)
  else
    let mean := historicalCounts.sum / historicalCounts.length
    if recentCount < mean then (mean, 0)
    else
      let mean := max mean 1
      (mean, poissonCdf ⌊recentCount⌋ mean)

/-! ## The error blacklist (`server._ERROR_BLACKLIST_THRESHOLDS`) -/

/-- A blacklist pattern: a plain substring, or the one compiled regex of
the table. -/
inductive BlkPat
  | str (s : List Char)
  | memcacheChunkRegex
deriving DecidableEq

/-- The literal part of the blacklist regex (its escaped dots). -/
def memcacheChunkLit : List Char :=
  lc "google.appengine.api.memcache set failed on chunk for "

/-- The tail of the blacklist regex; its dots are *unescaped* and match
any character. -/
def memcacheChunkTail : List Char := lc "user_models.get_students_data"

/-- Character-wise match where `.` in the pattern matches anything. -/
def wildEq : List Char → List Char → Bool
  | [], [] => true
  | p :: ps, c :: cs => (p = '.' || p = c) && wildEq ps cs
  | _, _ => false

/-- Does `...chunk for [^ ]* user_models.get_students_data` match at the
start of `s`? (`[^ ]*` with backtracking = some split into a space-free
run, a space, and the wildcarded tail.) -/
def matchChunkAt (s : List Char) : Bool :=
  if memcacheChunkLit.isPrefixOf s then
    let rest := s.drop memcacheChunkLit.length
    (List.range ((rest.takeWhile (fun c => c ≠ ' ')).length + 1)).any fun j =>
      match rest.drop j with
      | ' ' :: r2 =>
        decide (memcacheChunkTail.length ≤ r2.length) &&
          wildEq memcacheChunkTail (r2.take memcacheChunkTail.length)
      | _ => false
  else false

/-- `regex.search`: a match starting anywhere. -/
def memcacheChunkSearch (s : List Char) : Bool :=
  (List.range (s.length + 1)).any fun i => matchChunkAt (s.drop i)

/-- `_ERROR_BLACKLIST_THRESHOLDS`. -/
def errorBlacklistThresholds : List (BlkPat × ℚ) :=
  [(.str (lc "Exceeded soft private memory limit"), 100),
   (.str (lc "Request was aborted after waiting too long"), 800),
   (.str (lc "ApplicationError: 4 Unknown error"), 100),
   (.memcacheChunkRegex, 100),
   (.str (lc "Process terminated because the request deadline was exceeded"), 100),
   (.str (lc "DeadlineExceededError: The overall deadline for responding"), 50)]

/-- One blacklist pattern against one log line (`in` / `regex.search`). -/
def blkMatches (p : BlkPat) (logline : List Char) : Bool :=
  match p with
  | .str pat => decide (pat <:+: logline)
  | .memcacheChunkRegex => memcacheChunkSearch logline

/-- `server._matches_blacklist(logline, count)`. -/
def matchesBlacklist (logline : List Char) (count : ℚ) : Bool :=
  errorBlacklistThresholds.any fun pt => blkMatches pt.1 logline && decide (count ≤ pt.2)

/-- `server._version_sort_key`. -/
def versionSortKey (v : List Char) : List Char :=
  if (lc "12").isPrefixOf v then lc "14" ++ v else lc "15" ++ v

/-! ## `POST /monitor` (`server.monitor`) -/

/-- A field of a JSON object: missing, JSON `null`, or a value. -/
inductive JField (α : Type)
  | absent
  | jnull
  | val (a : α)
deriving DecidableEq

/-- One record of the posted `logs` array (its own fields are accessed
directly and are modelled as present). -/
structure LogRecord where
  status : ℤ
  level : ℤ
  resource : List Char
  ip : List Char
  route : List Char
  moduleId : List Char
  message : List Char
deriving DecidableEq

/-- The JSON body of `POST /monitor`, modelled by its three read fields.
`none` stands for a body `get_json` rejects; an object with all three
fields missing models `{}` (both are falsy). -/
structure MonitorParams where
  logs : JField (List LogRecord)
  minute : JField ℤ
  version : JField (List Char)

inductive PostResp
  | badRequest
  | okText
deriving DecidableEq, Repr

/-- `server.monitor`: record each posted log line, then mark the
(version, minute) cell as seen.  A missing field raises `KeyError`
(`params['logs']` etc.), which Flask surfaces as a 500 — only explicit
`null` values reach the 400 check. -/
def monitorPost (st : St) (body : Option MonitorParams) : Exc (PostResp × St) :=
  match body with
  | none => .ok (.badRequest, st)
  | some p =>
    if p.logs = .absent ∧ p.minute = .absent ∧ p.version = .absent then
      .ok (.badRequest, st)  -- `{}` is falsy, like a rejected body
    else
      match p.logs, p.minute, p.version with
      | .absent, _, _ => .error (lc "KeyError: logs")
      | _, .absent, _ => .error (lc "KeyError: minute")
      | _, _, .absent => .error (lc "KeyError: version")
      | .jnull, _, _ => .ok (.badRequest, st)
      | _, .jnull, _ => .ok (.badRequest, st)
      | _, _, .jnull => .ok (.badRequest, st)
      | .val logs, .val minute, .val version =>
        let st1 := logs.foldl
          (fun s log => recordOccurrenceDuringMonitoring s version minute
            (intToChars log.status) (intToChars log.level) log.resource log.ip
            log.route log.moduleId log.message)
          st
        .ok (.okText, recordMonitoringDataReceived st1 version minute)

/-! ## `GET /errors/<version>/monitor/<minute>` (`server.monitor_results`) -/

/-- One entry of the returned `errors` array. -/
structure SigRecord where
  key : List Char
  status : ℤ
  level : List Char
  message : List Char
  minute : ℤ
  monitorCount : ℚ
  expectedCount : ℝ
  probability : ℝ

inductive ResultsResp
  | badRequest
  | results (errors : List SigRecord)

/-- `version_counts_by_key`: per reference version, the key ↦ count map of
its minute cell. -/
def buildCountsLoop (minute : ℤ) : St → List (List Char) →
    Exc (List (List Char × List (List Char × ℚ)) × St)
  | st, [] => .ok ([], st)
  | st, v :: rest =>
    match getMonitoringErrors st v minute with
    | .error e => .error e
    | .ok (entries, st') =>
      match buildCountsLoop minute st' rest with
      | .error e => .error e
      | .ok (tail, st'') =>
        .ok ((v, entries.map fun p => (p.1.errorDef.key, p.2)) :: tail, st'')

open Classical in
/-- The body of the `for error, monitor_count in errors` loop: decide
whether this error is significant, building its record if so. -/
noncomputable def processOne (st : St) (origVersions verifyVersions : List (List Char))
    (countsByKey : List (List Char × List (List Char × ℚ))) (minute : ℤ)
    (e : CachedDef) (c : ℚ) : Exc (Option SigRecord × St) :=
  if matchesBlacklist e.errorDef.title c then .ok (none, st)
  else
    let versionCounts : List ℚ := verifyVersions.map fun v =>
      (alGetLast ((alGet countsByKey v).getD []) e.errorDef.key).getD 0
    let ep := countIsElevatedProbability (versionCounts.map fun q => (q : ℝ)) (c : ℝ)
    let mk : St → Exc (Option SigRecord × St) := fun st' =>
      match pyInt e.errorDef.status, levelReadableOf e.errorDef.level with
      | some statusInt, some lvl =>
        .ok (some ⟨e.errorDef.key, statusInt, lvl, e.errorDef.title, minute, c,
          ep.1, ep.2⟩, st')
      | _, _ => .error (lc "int(status) / ERROR_LEVELS[int(level)] failed")
    if (0.9995 : ℝ) ≤ ep.2 then
      if c = 1 then .ok (none, st)
      else if c < 5 then
        match getErrorSummaryInfo st e.errorDef.key with
        | .error err => .error err
        | .ok (none, st1) => .error (lc "TypeError: NoneType is not subscriptable")
        | .ok (some info, st1) =>
          let errorVersions := info.versions.map (·.1)
          if origVersions.any (fun v =>
              errorVersions.contains v || errorVersions.contains (lc "MON_" ++ v)) then
            .ok (none, st1)
          else mk st1
      else mk st
    else .ok (none, st)

/-- The significant-error loop over the candidate's monitoring errors. -/
noncomputable def processEntries (origVersions verifyVersions : List (List Char))
    (countsByKey : List (List Char × List (List Char × ℚ))) (minute : ℤ) :
    St → List (CachedDef × ℚ) → Exc (List SigRecord × St)
  | st, [] => .ok ([], st)
  | st, (e, c) :: rest =>
    match processOne st origVersions verifyVersions countsByKey minute e c with
    | .error err => .error err
    | .ok (r?, st1) =>
      match processEntries origVersions verifyVersions countsByKey minute st1 rest with
      | .error err => .error err
      | .ok (recs, st2) =>
        .ok ((match r? with | some r => r :: recs | none => recs), st2)

/-- `server.monitor_results`: 400 on a missing/empty `verify_versions`;
reference versions with no recorded data for the minute are filtered out;
each error of the candidate's minute cell is tested for significance. -/
noncomputable def monitorResults (st : St) (versionId : List Char) (minute : ℤ)
    (verifyVersionsParam : Option (List Char)) : Exc (ResultsResp × St) :=
  match verifyVersionsParam with
  | none => .ok (.badRequest, st)
  | some p =>
    if p = [] then .ok (.badRequest, st)
    else
      let origVersions := p.splitOn ','
      let verifyVersions := origVersions.filter
        (fun v => checkMonitoringDataReceived st v minute)
      match buildCountsLoop minute st verifyVersions with
      | .error e => .error e
      | .ok (countsByKey, st1) =>
        match getMonitoringErrors st1 versionId minute with
        | .error e => .error e
        | .ok (entries, st2) =>
          match processEntries origVersions verifyVersions countsByKey minute st2 entries with
          | .error e => .error e
          | .ok (recs, st3) => .ok (.results recs, st3)

/-! ## `GET /error/<error_key>` (`server.view_error`) -/

inductive ErrResp
  | notFound
  | summary (info : SummaryInfo) (routes : List RouteInfo)

/-- `server.view_error`: the summary plus extended information for the
latest version; `sorted(info["versions"].keys(), ...)[-1]` raises
`IndexError` when there are no versions. -/
def viewError (st : St) (errorKey : List Char) : Exc (ErrResp × St) :=
  match getErrorSummaryInfo st errorKey with
  | .error e => .error e
  | .ok (none, st1) => .ok (.notFound, st1)
  | .ok (some info, st1) =>
    let sortedVersions := insSort
      (fun a b => lexLe (versionSortKey a) (versionSortKey b))
      (info.versions.map (·.1))
    match sortedVersions.getLast? with
    | none => .error (lc "IndexError: list index out of range")
    | some latest =>
      match getErrorExtendedInformation st1.redis latest errorKey with
      | .error e => .error e
      | .ok routes => .ok (.summary info routes, st1)

/-! ## Anomaly detection (`detect_anomalies.py`, `report_anomalies.py`)

`rpca` (the external R robust-PCA call, wrapped by `detect_anomalies.rpca`)
is a parameter: the claims below are about the plumbing around it.  The
worker-pool fan-out is a pure per-route map (the detector is
deterministic, spec §4.7), so it is embedded as `List.map`. -/

def NUM_HOURS_PER_WEEK : ℕ := 168

/-- The `for i in xrange(len(hours_seen))` scan: the *last* index at
which the hour occurs. -/
def lastIdxOf (x : List Char) (l : List (List Char)) : Option ℕ :=
  (List.range l.length).foldl (fun acc i => if l.getD i [] = x then some i else acc) none

/-- The body of `detect_anomalies.check_anomaly` for one route: the value
written into the shared anomalies array (which defaults to 0). -/
def checkAnomalyValue (s : Store) (rpca : List ℤ → List ℚ)
    (logHour route : List Char) : ℚ :=
  let hc := getHourlyResponsesCount s route 200
  let hoursSeen := hc.1.drop (hc.1.length % NUM_HOURS_PER_WEEK)
  let responsesCount := hc.2.drop (hc.2.length % NUM_HOURS_PER_WEEK)
  match lastIdxOf logHour hoursSeen with
  | none => 0
  | some 0 => 0
  | some (i + 1) =>
    let scores := rpca responsesCount
    if scores.getD i 0 ≠ 0 then scores.getD i 0 else 0

/-- `detect_anomalies.find_anomalies_on_routes`. -/
def findAnomaliesOnRoutes (s : Store) (rpca : List ℤ → List ℚ)
    (logHour : List Char) (routes : List (List Char)) : List ℚ :=
  routes.map (checkAnomalyValue s rpca logHour)

/-- One reported anomaly (`report_anomalies`). -/
structure AnomalyInfo where
  route : List Char
  status : ℤ
  count : ℤ
  anomalyScore : ℚ
deriving DecidableEq, Repr

/-- `report_anomalies._get_recent_anomalies`: routes whose score is below
−10, with the count at the requested hour. -/
def getRecentAnomalies (s : Store) (rpca : List ℤ → List ℚ)
    (logHour : List Char) : List AnomalyInfo :=
  let routes := getRoutes s
  let scores := findAnomaliesOnRoutes s rpca logHour routes
  (List.range routes.length).filterMap fun i =>
    if scores.getD i 0 < -10 then
      some ⟨routes.getD i [], 200, getResponsesCount s (routes.getD i []) 200 logHour,
        scores.getD i 0⟩
    else none

/-! ## Projection lemmas for `parseMessage` -/

theorem parseMessage_title (message s l : List Char) :
    (parseMessage message s l).1.title = msgTitle (message.splitOn '\n') := rfl

theorem parseMessage_stack (message s l : List Char) :
    (parseMessage message s l).2.1
      = ((message.splitOn '\n').drop 1).filterMap lineFrame := rfl

theorem parseMessage_stackKey (message s l : List Char) :
    (parseMessage message s l).2.2
      = md5Hex (List.intercalate ['|']
          ((((message.splitOn '\n').drop 1).filterMap lineFrame).map
            fun f => f.filename ++ ':' :: f.function)) := rfl

/-! ## C9 — stackless messages share one constant stack key -/

/-- C9: for every message in which no line after the first yields a stack
frame (the `  File "...", line N, in F` pattern), `_parse_message` returns
an empty stack and the constant stack key `md5("")` =
`d41d8cd98f00b204e9800998ecf8427e`; all stackless messages therefore share
one stack key and coalesce in the per-route stack counters. -/
theorem C9_stackless_constant_stack_key (message s l : List Char)
    (h : ∀ line ∈ (message.splitOn '\n').drop 1, lineFrame line = none) :
    (parseMessage message s l).2.1 = [] ∧
    (parseMessage message s l).2.2 = lc "d41d8cd98f00b204e9800998ecf8427e" := by
  have hs : ((message.splitOn '\n').drop 1).filterMap lineFrame = [] :=
    List.filterMap_eq_nil_iff.mpr h
  refine ⟨by rw [parseMessage_stack, hs], ?_⟩
  rw [parseMessage_stackKey, hs]
  decide

/-- Witness for C9 at the concrete message `"Boom\nnot a frame"`. -/
theorem C9_witness :
    (parseMessage (lc "Boom\nnot a frame") (lc "200") (lc "3")).2.1 = [] ∧
    (parseMessage (lc "Boom\nnot a frame") (lc "200") (lc "3")).2.2
      = lc "d41d8cd98f00b204e9800998ecf8427e" :=
  C9_stackless_constant_stack_key (lc "Boom\nnot a frame") (lc "200") (lc "3")
    (by decide)

/-! ## C4 — the parsed title -/

/-- The title as §3 of the spec words it: the first *non-empty* line, with
the promotion marker stripped.  (Written from the spec's words, to compare
with the code's `msgTitle`.) -/
def specFirstNonEmptyTitle (message : List Char) : Option (List Char) :=
  ((message.splitOn '\n').find? (fun t => !t.isEmpty)).map stripPromo

/-- C4 counterexample: on the message `"\nA\nB"` the code's title is the
*last* line `"B"`, while the first non-empty line is `"A"`. -/
theorem C4_counterexample :
    (parseMessage (lc "\nA\nB") (lc "200") (lc "3")).1.title = lc "B" ∧
    specFirstNonEmptyTitle (lc "\nA\nB") = some (lc "A") ∧
    (lc "B" : List Char) ≠ lc "A" := by
  decide

/-- C4 (amended): for a message assembled from its lines, the parsed title
is the *first* line with the promotion marker stripped; if that is empty
(the first line was empty or was exactly the marker), it is the *last*
line, unstripped. -/
theorem C4_title_first_line_else_last (ls : List (List Char)) (s l : List Char)
    (h1 : ls ≠ []) (h2 : ∀ line ∈ ls, '\n' ∉ line) :
    (parseMessage (List.intercalate ['\n'] ls) s l).1.title =
      (if stripPromo (ls.headD []) = [] then ls.getLastD []
       else stripPromo (ls.headD [])) := by
  rw [parseMessage_title, List.splitOn_intercalate _ '\n' h2 h1]
  rfl

/-- Witness for C4 (amended) at the one-line message `"X"`. -/
theorem C4_witness :
    (parseMessage (List.intercalate ['\n'] [lc "X"]) (lc "200") (lc "3")).1.title =
      (if stripPromo (([lc "X"] : List (List Char)).headD []) = []
       then ([lc "X"] : List (List Char)).getLastD []
       else stripPromo (([lc "X"] : List (List Char)).headD [])) :=
  C4_title_first_line_else_last [lc "X"] (lc "200") (lc "3") (by decide) (by decide)

/-! ## C5 — blacklisted resources record nothing -/

/-- C5: recording an occurrence whose resource starts with a blacklisted
URI returns no error key and leaves the whole state (Redis and caches)
unchanged, through `_update_error_details` and both entry points. -/
theorem C5_blacklisted_resource_writes_nothing (st : St)
    (version status level resource ip route module message : List Char)
    (h : uriBlacklist.any (fun u => u.isPrefixOf resource) = true) :
    updateErrorDetails st version status level resource ip route module message
      = (none, st) ∧
    (∀ minute : ℤ,
      recordOccurrenceDuringMonitoring st version minute status level resource
        ip route module message = st) ∧
    (∀ (nowExpiry : ℤ) (logHour : List Char),
      recordOccurrenceFromErrors nowExpiry st version logHour status level
        resource ip route module message = .ok ((none, false), st)) := by
  have h1 : ∀ (v : List Char) (st' : St),
      updateErrorDetails st' v status level resource ip route module message
        = (none, st') := by
    intro v st'
    unfold updateErrorDetails
    rw [if_pos h]
  refine ⟨h1 version st, fun minute => ?_, fun nowExpiry logHour => ?_⟩
  · unfold recordOccurrenceDuringMonitoring
    rw [h1]
  · unfold recordOccurrenceFromErrors
    rw [h1]

/-- Witness for C5 at the blacklisted resource
`/api/internal/translate/lint_poentry?lang=es`. -/
theorem C5_witness :
    updateErrorDetails
      ⟨⟨fun _ => none, fun _ _ => none, fun _ => [], fun _ => [], fun _ => [],
        fun _ => none, fun _ => [], fun _ => none⟩, fun _ => none, fun _ _ => none⟩
      (lc "v1") (lc "500") (lc "3") (lc "/api/internal/translate/lint_poentry?lang=es")
      (lc "1.2.3.4") (lc "/r") (lc "default") (lc "Boom")
      = (none,
        ⟨⟨fun _ => none, fun _ _ => none, fun _ => [], fun _ => [], fun _ => [],
          fun _ => none, fun _ => [], fun _ => none⟩, fun _ => none, fun _ _ => none⟩) :=
  (C5_blacklisted_resource_writes_nothing _ (lc "v1") (lc "500") (lc "3")
    (lc "/api/internal/translate/lint_poentry?lang=es") (lc "1.2.3.4") (lc "/r")
    (lc "default") (lc "Boom") (by decide)).1

/-! ## C3 — digit-insensitive grouping

"Two titles differing only by substrings of digits" is formalised as
equality of their digit substitutions (`digitSub`), exactly the
normalisation `id0` applies. -/

theorem digitSubGo_true (cs : List Char) :
    digitSubGo true cs = digitSubGo false (cs.dropWhile Char.isDigit) := by
  induction cs with
  | nil => rfl
  | cons c cs ih =>
    by_cases hc : c.isDigit
    · simp only [digitSubGo, hc, if_true, List.dropWhile_cons, List.nil_append, ih]
    · simp only [digitSubGo, hc, if_false, List.dropWhile_cons, Bool.false_eq_true]

/-- Heads differ when one is a digit and the other is not. -/
theorem ne_of_digit_mismatch (p c : Char) (hp : p.isDigit = false)
    (hc : c.isDigit = true) : p ≠ c := by
  intro h
  rw [h, hc] at hp
  exact Bool.noConfusion hp

/-- A digit-free, `%`-free pattern is a prefix of `digitSub t` iff it is a
prefix of `t`. -/
theorem prefix_digitSubGo : ∀ (t P : List Char),
    (∀ c ∈ P, c.isDigit = false) → '%' ∉ P →
    ((P <+: digitSubGo false t) ↔ (P <+: t)) := by
  intro t
  induction t with
  | nil => intro P _ _; exact Iff.rfl
  | cons c cs ih =>
    intro P hd hp
    by_cases hc : c.isDigit
    · have e : digitSubGo false (c :: cs) = '%' :: '%' :: digitSubGo true cs := by
        simp [digitSubGo, hc]
      cases P with
      | nil => simp
      | cons p P' =>
        rw [e, List.cons_prefix_cons, List.cons_prefix_cons]
        have hp' : p ≠ '%' := fun h => hp (h ▸ List.mem_cons_self _ _)
        have hd' : p ≠ c :=
          ne_of_digit_mismatch p c (hd p (List.mem_cons_self _ _)) hc
        constructor
        · rintro ⟨h, -⟩; exact absurd h hp'
        · rintro ⟨h, -⟩; exact absurd h hd'
    · have e : digitSubGo false (c :: cs) = c :: digitSubGo false cs := by
        simp [digitSubGo, hc]
      cases P with
      | nil => simp
      | cons p P' =>
        rw [e, List.cons_prefix_cons, List.cons_prefix_cons]
        exact and_congr_right fun _ =>
          ih P' (fun x hx => hd x (List.mem_cons_of_mem _ hx))
            (fun hx => hp (List.mem_cons_of_mem _ hx))

/-- A pattern with a non-digit head occurs in `l` iff it occurs after the
leading digits of `l` are dropped. -/
theorem infix_dropWhile_digit : ∀ (l P : List Char), P ≠ [] →
    (∀ c ∈ P, c.isDigit = false) →
    ((P <:+: l.dropWhile Char.isDigit) ↔ (P <:+: l)) := by
  intro l
  induction l with
  | nil => intro P _ _; exact Iff.rfl
  | cons c cs ih =>
    intro P hne hd
    by_cases hc : c.isDigit
    · rw [List.dropWhile_cons, if_pos hc, ih P hne hd, List.infix_cons_iff]
      constructor
      · exact Or.inr
      · rintro (hpfx | h)
        · cases P with
          | nil => exact absurd rfl hne
          | cons p P' =>
            rw [List.cons_prefix_cons] at hpfx
            exact absurd hpfx.1
              (ne_of_digit_mismatch p c (hd p (List.mem_cons_self _ _)) hc)
        · exact h
    · rw [List.dropWhile_cons, if_neg hc]

/-- A digit-free, `%`-free pattern occurs in `digitSub t` iff it occurs in
`t`. -/
theorem infix_digitSubGo : ∀ (n : ℕ) (t P : List Char), t.length ≤ n → P ≠ [] →
    (∀ c ∈ P, c.isDigit = false) → '%' ∉ P →
    ((P <:+: digitSubGo false t) ↔ (P <:+: t)) := by
  intro n
  induction n with
  | zero =>
    intro t P ht _ _ _
    rw [List.length_eq_zero.mp (Nat.le_zero.mp ht)]
    exact Iff.rfl
  | succ n ih =>
    intro t P ht hne hd hp
    cases t with
    | nil => exact Iff.rfl
    | cons c cs =>
      have hpc : ∀ X, ¬((P <+: '%' :: X)) := by
        intro X h
        cases P with
        | nil => exact hne rfl
        | cons p P' =>
          rw [List.cons_prefix_cons] at h
          exact hp (h.1 ▸ List.mem_cons_self _ _)
      by_cases hc : c.isDigit
      · rw [show digitSubGo false (c :: cs)
              = '%' :: '%' :: digitSubGo true cs by simp [digitSubGo, hc],
          digitSubGo_true, List.infix_cons_iff, List.infix_cons_iff]
        have hlen : (cs.dropWhile Char.isDigit).length ≤ n := by
          have := (List.dropWhile_sublist (l := cs) Char.isDigit).length_le
          simp only [List.length_cons] at ht
          omega
        rw [List.infix_cons_iff]
        constructor
        · rintro (h | h | h)
          · exact absurd h (hpc _)
          · exact absurd h (hpc _)
          · exact Or.inr ((infix_dropWhile_digit cs P hne hd).mp
              ((ih _ P hlen hne hd hp).mp h))
        · rintro (h | h)
          · cases P with
            | nil => exact absurd rfl hne
            | cons p P' =>
              rw [List.cons_prefix_cons] at h
              exact absurd h.1
                (ne_of_digit_mismatch p c (hd p (List.mem_cons_self _ _)) hc)
          · exact Or.inr (Or.inr ((ih _ P hlen hne hd hp).mpr
              ((infix_dropWhile_digit cs P hne hd).mpr h)))
      · rw [show digitSubGo false (c :: cs)
              = c :: digitSubGo false cs by simp [digitSubGo, hc],
          List.infix_cons_iff, List.infix_cons_iff]
        have hlen : cs.length ≤ n := by
          simp only [List.length_cons] at ht; omega
        refine or_congr ?_ (ih _ P hlen hne hd hp)
        cases P with
        | nil => simp
        | cons p P' =>
          rw [List.cons_prefix_cons, List.cons_prefix_cons]
          exact and_congr_right fun _ =>
            prefix_digitSubGo cs P' (fun x hx => hd x (List.mem_cons_of_mem _ hx))
              (fun hx => hp (List.mem_cons_of_mem _ hx))

/-- The non-combinable rule that applies is unchanged by digit
substitution, given equal Memcache captures. -/
theorem nonCombinableResult_congr (t1 t2 : List Char)
    (h1 : digitSub t1 = digitSub t2)
    (h2 : memcacheCapture t1 = memcacheCapture t2) :
    nonCombinableResult t1 = nonCombinableResult t2 := by
  have hinf : (lc "object has no attribute" <:+: t1)
      ↔ (lc "object has no attribute" <:+: t2) := by
    rw [← infix_digitSubGo t1.length t1 _ le_rfl (by decide) (by decide) (by decide)]
    rw [← infix_digitSubGo t2.length t2 _ le_rfl (by decide) (by decide) (by decide)]
    rw [show digitSubGo false t1 = digitSub t1 from rfl,
      show digitSubGo false t2 = digitSub t2 from rfl, h1]
  have hpfx : (lc "Error in signature for").isPrefixOf t1
      = (lc "Error in signature for").isPrefixOf t2 := by
    have : (lc "Error in signature for" <+: t1) ↔ (lc "Error in signature for" <+: t2) := by
      rw [← prefix_digitSubGo t1 _ (by decide) (by decide),
        ← prefix_digitSubGo t2 _ (by decide) (by decide),
        show digitSubGo false t1 = digitSub t1 from rfl,
        show digitSubGo false t2 = digitSub t2 from rfl, h1]
    by_cases hp1 : lc "Error in signature for" <+: t1
    · rw [List.isPrefixOf_iff_prefix.mpr hp1,
        List.isPrefixOf_iff_prefix.mpr (this.mp hp1)]
    · have e1 : (lc "Error in signature for").isPrefixOf t1 = false := by
        rw [Bool.eq_false_iff]
        intro hx
        exact hp1 (List.isPrefixOf_iff_prefix.mp hx)
      have e2 : (lc "Error in signature for").isPrefixOf t2 = false := by
        rw [Bool.eq_false_iff]
        intro hx
        exact hp1 (this.mpr (List.isPrefixOf_iff_prefix.mp hx))
      rw [e1, e2]
  unfold nonCombinableResult
  rw [h2, hpfx]
  by_cases h : lc "object has no attribute" <:+: t1
  · rw [if_pos h, if_pos (hinf.mp h)]
  · rw [if_neg h, if_neg (fun hx => h (hinf.mpr hx))]

/-- The error key as a function of (status, level, title) — the portion of
`_parse_message` that determines `key`. -/
def keyOfTitle (status level title : List Char) : List Char :=
  let idPfx := status ++ ' ' :: level ++ [' ']
  let id0 := idPfx ++ digitSub title
  let ids : Option (List Char) × Option (List Char) × Option (List Char) :=
    match nonCombinableResult title with
    | some g => (none, none, g)
    | none =>
      let ws := id0.splitOn ' '
      (some (idPfx ++ List.intercalate [' '] ((ws.drop 2).take 3)),
       some (idPfx ++ List.intercalate [' '] (ws.drop (ws.length - 3))),
       none)
  (md5Hex (id0 ++ optStr ids.1 ++ optStr ids.2.1 ++ optStr ids.2.2)).take 8

theorem parseMessage_key (message s l : List Char) :
    (parseMessage message s l).1.key
      = keyOfTitle s l (msgTitle (message.splitOn '\n')) := rfl

/-- Equal digit substitutions and equal Memcache captures give equal keys. -/
theorem keyOfTitle_congr (s l t1 t2 : List Char)
    (h1 : digitSub t1 = digitSub t2)
    (h2 : memcacheCapture t1 = memcacheCapture t2) :
    keyOfTitle s l t1 = keyOfTitle s l t2 := by
  unfold keyOfTitle
  rw [nonCombinableResult_congr t1 t2 h1 h2, h1]

/-- C3 counterexample: the titles `"Memcache set failed for 1"` and
`"Memcache set failed for 2"` differ only by a digit substring (equal
digit substitutions), yet the Memcache non-combinable rule captures the
digits into `id3`, so the two messages get different error keys. -/
theorem C3_counterexample :
    digitSub (lc "Memcache set failed for 1")
      = digitSub (lc "Memcache set failed for 2") ∧
    (parseMessage (lc "Memcache set failed for 1") (lc "200") (lc "3")).1.key
      ≠ (parseMessage (lc "Memcache set failed for 2") (lc "200") (lc "3")).1.key := by
  constructor
  · decide
  · decide

/-- C3 (amended): two messages with the same status and level whose
titles have equal digit substitutions produce the same error key,
*provided* the Memcache non-combinable rule captures the same value from
both titles (in particular whenever the titles do not match that rule, or
the digits sit outside the captured prefix).  Digit runs inside the
capture of `Memcache set failed for ...` reach `id3` unsubstituted and
may change the key, as the counterexample shows. -/
theorem C3_digit_insensitive_key (m1 m2 s l : List Char)
    (h1 : digitSub ((parseMessage m1 s l).1.title)
      = digitSub ((parseMessage m2 s l).1.title))
    (h2 : memcacheCapture ((parseMessage m1 s l).1.title)
      = memcacheCapture ((parseMessage m2 s l).1.title)) :
    (parseMessage m1 s l).1.key = (parseMessage m2 s l).1.key := by
  rw [parseMessage_title] at h1 h2
  rw [parseMessage_key, parseMessage_key]
  exact keyOfTitle_congr s l _ _ h1 h2

/-- Witness for C3 (amended): `"Error on line 21: x"` and
`"Error on line 300: x"` share one key. -/
theorem C3_witness :
    (parseMessage (lc "Error on line 21: x") (lc "200") (lc "3")).1.key
      = (parseMessage (lc "Error on line 300: x") (lc "200") (lc "3")).1.key :=
  C3_digit_insensitive_key (lc "Error on line 21: x") (lc "Error on line 300: x")
    (lc "200") (lc "3") (by decide) (by decide)

/-! ## C6 — `POST /monitor` and missing fields -/

/-- C6 (code bug): a JSON body that simply *omits* a required field makes
`params['logs']` raise `KeyError` (HTTP 500), never reaching the
`is None` check that returns 400; only an explicit `null` yields the 400
the spec promises. -/
theorem C6_missing_field_raises (st : St) :
    monitorPost st (some ⟨.absent, .val 0, .val (lc "v1")⟩)
      = .error (lc "KeyError: logs") ∧
    monitorPost st (some ⟨.jnull, .val 0, .val (lc "v1")⟩)
      = .ok (.badRequest, st) :=
  ⟨rfl, rfl⟩

/-! ## C2 — the baseline analyzer -/

theorem poissonCdf_nonneg (a : ℤ) (m : ℝ) (hm : 0 ≤ m) : 0 ≤ poissonCdf a m := by
  unfold poissonCdf
  split
  · exact le_refl 0
  · refine Finset.sum_nonneg fun i _ => ?_
    have h1 : (0:ℝ) < Real.exp (-m) := Real.exp_pos _
    have h2 : (0:ℝ) ≤ m ^ i := pow_nonneg hm i
    positivity

theorem poissonCdf_le_one (a : ℤ) (m : ℝ) (hm : 0 ≤ m) : poissonCdf a m ≤ 1 := by
  unfold poissonCdf
  split
  · exact zero_le_one
  · have hfac : ∑ i ∈ Finset.range (a.toNat + 1), Real.exp (-m) * m ^ i / i.factorial
        = Real.exp (-m) * ∑ i ∈ Finset.range (a.toNat + 1), m ^ i / i.factorial := by
      rw [Finset.mul_sum]
      exact Finset.sum_congr rfl fun i _ => (mul_div_assoc _ _ _)
    rw [hfac]
    calc Real.exp (-m) * ∑ i ∈ Finset.range (a.toNat + 1), m ^ i / i.factorial
        ≤ Real.exp (-m) * Real.exp m :=
          mul_le_mul_of_nonneg_left (Real.sum_le_exp_of_nonneg hm _)
            (le_of_lt (Real.exp_pos _))
      _ = 1 := by rw [← Real.exp_add]; simp

/-- C2: the baseline analyzer returns `(0,0)` on empty history; `(mean,0)`
when the recent count is below the mean; otherwise
`(max mean 1, PoissonCDF(⌊recent⌋; max mean 1))` with the probability in
`[0, 1]`. -/
theorem C2_baseline_analyzer (historicalCounts : List ℝ) (recentCount : ℝ) :
    (historicalCounts = [] →
      countIsElevatedProbability historicalCounts recentCount = (0, 0)) ∧
    (historicalCounts ≠ [] →
      (recentCount < historicalCounts.sum / historicalCounts.length →
        countIsElevatedProbability historicalCounts recentCount
          = (historicalCounts.sum / historicalCounts.length, 0)) ∧
      (¬ recentCount < historicalCounts.sum / historicalCounts.length →
        countIsElevatedProbability historicalCounts recentCount
          = (max (historicalCounts.sum / historicalCounts.length) 1,
             poissonCdf ⌊recentCount⌋
               (max (historicalCounts.sum / historicalCounts.length) 1)) ∧
        0 ≤ (countIsElevatedProbability historicalCounts recentCount).2 ∧
        (countIsElevatedProbability historicalCounts recentCount).2 ≤ 1)) := by
  have hm : (0:ℝ) ≤ max (historicalCounts.sum / historicalCounts.length) 1 :=
    le_trans zero_le_one (le_max_right _ _)
  refine ⟨fun h => by simp [countIsElevatedProbability, h], fun hne => ⟨fun hlt => ?_, fun hge => ?_⟩⟩
  · simp only [countIsElevatedProbability, if_neg hne, if_pos hlt]
  · have he : countIsElevatedProbability historicalCounts recentCount
        = (max (historicalCounts.sum / historicalCounts.length) 1,
           poissonCdf ⌊recentCount⌋
             (max (historicalCounts.sum / historicalCounts.length) 1)) := by
      simp only [countIsElevatedProbability, if_neg hne, if_neg hge]
    refine ⟨he, ?_, ?_⟩
    · rw [he]
      exact poissonCdf_nonneg _ _ hm
    · rw [he]
      exact poissonCdf_le_one _ _ hm

/-- Witness for C2 at the empty history and at history `[2, 4]` with
recent count 1 (below the mean 3). -/
theorem C2_witness :
    countIsElevatedProbability [] (5:ℝ) = (0, 0) ∧
    countIsElevatedProbability [(2:ℝ), 4] 1 = (3, 0) := by
  have e : (([(2:ℝ), 4].sum) / (([(2:ℝ), 4].length : ℕ) : ℝ)) = 3 := by
    norm_num
  refine ⟨(C2_baseline_analyzer [] 5).1 rfl, ?_⟩
  have h := ((C2_baseline_analyzer [(2:ℝ), 4] 1).2 (by simp)).1 (by rw [e]; norm_num)
  rw [e] at h
  exact h

/-! ## C8 — which residual the anomaly reporter consults -/

theorem getRecentAnomalies_eq (s : Store) (rpca : List ℤ → List ℚ)
    (logHour : List Char) :
    getRecentAnomalies s rpca logHour
      = (List.range (getRoutes s).length).filterMap (fun k =>
          if ((getRoutes s).map (checkAnomalyValue s rpca logHour)).getD k 0 < -10 then
            some ⟨(getRoutes s).getD k [], 200,
              getResponsesCount s ((getRoutes s).getD k []) 200 logHour,
              ((getRoutes s).map (checkAnomalyValue s rpca logHour)).getD k 0⟩
          else none) := rfl

/-- A zero-padded three-digit decimal, a compact stand-in for a log hour
(the model never parses hour strings on this path). -/
def pad3 (n : ℕ) : List Char :=
  (if n < 10 then lc "00" else if n < 100 then lc "0" else []) ++ natToChars n

/-- 168 log hours `"000" … "167"`, all with score 1, as
`record_log_data_received` writes them. -/
def cexHours : List (List Char × ℚ) := (List.range 168).map fun i => (pad3 i, 1)

/-- A store with one route `"r"`, a full week of hours, and count 5 at
every (route, status, hour). -/
def cexAnomStore : Store :=
  { errorDefs := fun _ => none
    errordefIds := fun _ _ => none
    zsets := fun k => if k = lc "available_logs" then cexHours else []
    hashes := fun _ => []
    stackMsgs := fun _ => []
    strs := fun _ => none
    ssets := fun k => if k = lc "seen_routes" then [lc "r"] else []
    routeCounts := fun _ => some 5 }

/-- Residuals: −20 at position 10 (the requested hour), 0 elsewhere. -/
def cexRpca : List ℤ → List ℚ :=
  fun _ => (List.range 168).map fun i => if i = 10 then -20 else 0

/-- C8 counterexample: the hour `"010"` sits at position 10 of the
truncated series and the residual *at* that hour is −20 < −10, but the
code consults the residual at position 9 (one *before* the hour), which
is 0, so no anomaly is reported. -/
theorem C8_counterexample :
    lastIdxOf (lc "010")
      ((getHourlyResponsesCount cexAnomStore (lc "r") 200).1.drop
        ((getHourlyResponsesCount cexAnomStore (lc "r") 200).1.length % NUM_HOURS_PER_WEEK))
      = some 10 ∧
    (cexRpca ((getHourlyResponsesCount cexAnomStore (lc "r") 200).2.drop
        ((getHourlyResponsesCount cexAnomStore (lc "r") 200).2.length % NUM_HOURS_PER_WEEK))).getD 10 0
      < -10 ∧
    getRecentAnomalies cexAnomStore cexRpca (lc "010") = [] := by
  decide

/-- C8 (amended): for a route whose truncated hourly series contains the
requested hour at a position `j+1` after the first, an anomaly is
reported for that route iff the sparse residual at position `j` — the
position *immediately before* the requested hour — is < −10; the reported
record then carries the route, status 200, the count at the requested
hour, and that preceding residual as its score. -/
theorem C8_anomaly_uses_previous_residual (s : Store) (rpca : List ℤ → List ℚ)
    (logHour route : List Char) (i j : ℕ)
    (hnodup : (getRoutes s).Nodup)
    (hi : i < (getRoutes s).length)
    (hr : (getRoutes s).getD i [] = route)
    (hidx : lastIdxOf logHour
      ((getHourlyResponsesCount s route 200).1.drop
        ((getHourlyResponsesCount s route 200).1.length % NUM_HOURS_PER_WEEK))
      = some (j + 1)) :
    ((∃ a ∈ getRecentAnomalies s rpca logHour, a.route = route) ↔
      (rpca ((getHourlyResponsesCount s route 200).2.drop
        ((getHourlyResponsesCount s route 200).2.length % NUM_HOURS_PER_WEEK))).getD j 0
        < -10) ∧
    (∀ a ∈ getRecentAnomalies s rpca logHour, a.route = route →
      a = ⟨route, 200, getResponsesCount s route 200 logHour,
        (rpca ((getHourlyResponsesCount s route 200).2.drop
          ((getHourlyResponsesCount s route 200).2.length % NUM_HOURS_PER_WEEK))).getD j 0⟩) := by
  set routes := getRoutes s with hroutes
  set g := checkAnomalyValue s rpca logHour with hg
  set v := (rpca ((getHourlyResponsesCount s route 200).2.drop
    ((getHourlyResponsesCount s route 200).2.length % NUM_HOURS_PER_WEEK))).getD j 0 with hv
  -- the value the loop writes for this route
  have hsc : g route = (if v ≠ 0 then v else 0) := by
    rw [hg]
    unfold checkAnomalyValue
    simp only [hidx]
  have hrel1 : (g route < -10) ↔ (v < -10) := by
    rw [hsc]
    by_cases h0 : v = 0
    · rw [if_neg (by simp [h0]), h0]
    · rw [if_pos h0]
  have hrel2 : v < -10 → g route = v := by
    intro hlt
    rw [hsc, if_pos (by intro h0; rw [h0] at hlt; norm_num at hlt)]
  -- the per-index value of the scores array
  have hmapk : ∀ k, k < routes.length →
      (routes.map g).getD k 0 = g (routes.getD k []) := by
    intro k hk
    rw [List.getD_eq_getElem?_getD, List.getD_eq_getElem?_getD,
      List.getElem?_eq_getElem (by simpa using hk),
      List.getElem?_eq_getElem hk]
    simp
  -- membership analysis
  have hmem : ∀ a, a ∈ getRecentAnomalies s rpca logHour → a.route = route →
      (v < -10 ∧ a = ⟨route, 200, getResponsesCount s route 200 logHour, v⟩) := by
    intro a ha haroute
    rw [getRecentAnomalies_eq] at ha
    obtain ⟨k, hk, hfk⟩ := List.mem_filterMap.mp ha
    rw [List.mem_range] at hk
    by_cases hlt : (routes.map g).getD k 0 < -10
    · rw [if_pos hlt] at hfk
      have hak := Option.some_injective _ hfk
      have hkroute : routes.getD k [] = route := by
        rw [← haroute, ← hak]
      have hki : k = i := by
        refine List.getElem?_inj (by simpa using hk) hnodup ?_
        rw [List.getElem?_eq_getElem (by simpa using hk),
          List.getElem?_eq_getElem (by simpa using hi)]
        have e1 : routes[k] = routes.getD k [] := by
          rw [List.getD_eq_getElem?_getD, List.getElem?_eq_getElem (by simpa using hk)]
          rfl
        have e2 : routes[i] = routes.getD i [] := by
          rw [List.getD_eq_getElem?_getD, List.getElem?_eq_getElem (by simpa using hi)]
          rfl
        rw [e1, e2, hkroute, hr]
      subst hki
      rw [hmapk k hk, hkroute] at hlt
      have hvlt : v < -10 := hrel1.mp hlt
      refine ⟨hvlt, ?_⟩
      rw [← hak]
      have : (routes.map g).getD k 0 = v := by
        rw [hmapk k hk, hkroute, hrel2 hvlt]
      rw [this, hkroute]
    · rw [if_neg hlt] at hfk
      exact absurd hfk (by simp)
  constructor
  · constructor
    · rintro ⟨a, ha, haroute⟩
      exact (hmem a ha haroute).1
    · intro hvlt
      refine ⟨⟨route, 200, getResponsesCount s route 200 logHour, v⟩, ?_, rfl⟩
      rw [getRecentAnomalies_eq]
      refine List.mem_filterMap.mpr ⟨i, List.mem_range.mpr hi, ?_⟩
      have hvi : (routes.map g).getD i 0 = v := by
        rw [hmapk i hi, hr, hrel2 hvlt]
      rw [if_pos (by rw [hvi]; exact hvlt), hvi, hr]
  · intro a ha haroute
    exact (hmem a ha haroute).2

/-- Witness for C8 (amended): the counterexample store, where the
preceding residual is 0, so the iff yields non-membership. -/
theorem C8_witness :
    ((∃ a ∈ getRecentAnomalies cexAnomStore cexRpca (lc "010"), a.route = lc "r") ↔
      (cexRpca ((getHourlyResponsesCount cexAnomStore (lc "r") 200).2.drop
        ((getHourlyResponsesCount cexAnomStore (lc "r") 200).2.length % NUM_HOURS_PER_WEEK))).getD 9 0
        < -10) ∧
    (∀ a ∈ getRecentAnomalies cexAnomStore cexRpca (lc "010"), a.route = lc "r" →
      a = ⟨lc "r", 200, getResponsesCount cexAnomStore (lc "r") 200 (lc "010"),
        (cexRpca ((getHourlyResponsesCount cexAnomStore (lc "r") 200).2.drop
          ((getHourlyResponsesCount cexAnomStore (lc "r") 200).2.length % NUM_HOURS_PER_WEEK))).getD 9 0⟩) :=
  C8_anomaly_uses_previous_residual cexAnomStore cexRpca (lc "010") (lc "r") 0 9
    (by decide) (by decide) (by decide) (by decide)

/-! ## C10 — `GET /error/<key>` with an empty versions set -/

/-- C10: when `error:<key>` exists (with a parsable level, as every stored
def has) but the `<key>:versions` sorted set has no members — the state
the summary reader's pruning leaves behind once every version's
`hours_seen` hash has expired — `view_error` indexes the empty sorted
version list (`sorted(...)[-1]`) and raises `IndexError` instead of
returning a summary or a 404. -/
theorem C10_view_error_empty_versions_fails (st : St) (k : List Char)
    (d : ErrorDef) (lr : List Char)
    (hdef : st.redis.errorDefs k = some d)
    (hlr : levelReadableOf d.level = some lr)
    (hver : st.redis.zsets (k ++ lc ":versions") = []) :
    viewError st k = .error (lc "IndexError: list index out of range") := by
  obtain ⟨c, st1, hget, hz⟩ : ∃ c st1, getCachedErrorDef st k = .ok (some c, st1) ∧
      st1.redis = st.redis := by
    unfold getCachedErrorDef
    cases hdc : st.defCache k with
    | some c => exact ⟨c, st, rfl, rfl⟩
    | none =>
      refine ⟨⟨d, lr⟩,
        ⟨st.redis, updFn st.defCache k (some ⟨d, lr⟩),
         fun i => updFn (st.idCache i) (d.idN i) (some k)⟩, ?_, rfl⟩
      rw [hdef]
      simp [hlr]
  have hvr : zrevrangeWS st1.redis (k ++ lc ":versions") 0 (-1) = [] := by
    unfold zrevrangeWS
    rw [hz, hver]
    rfl
  have hsum : getErrorSummaryInfo st k
      = .ok (some (SummaryInfo.mk c []
          (((zrangeWS st1.redis (lc "first_seen:" ++ k) 0 0).head?).map (·.1))
          ((st1.redis.strs (lc "last_seen:" ++ k)).bind
            (fun s => if s = [] then none else some s))
          [] 0), st1) := by
    unfold getErrorSummaryInfo
    rw [hget]
    simp only [hvr, summaryLoop]
  unfold viewError
  rw [hsum]
  simp [insSort]

/-- Witness for C10 at a one-key store with no versions recorded. -/
theorem C10_witness :
    viewError
      ⟨⟨fun k => if k = lc "deadbeef" then
          some ⟨lc "deadbeef", lc "Boom", lc "500", lc "3",
            lc "500 3 Boom", none, none, none⟩ else none,
        fun _ _ => none, fun _ => [], fun _ => [], fun _ => [],
        fun _ => none, fun _ => [], fun _ => none⟩,
       fun _ => none, fun _ _ => none⟩
      (lc "deadbeef")
      = .error (lc "IndexError: list index out of range") :=
  C10_view_error_empty_versions_fails _ (lc "deadbeef")
    ⟨lc "deadbeef", lc "Boom", lc "500", lc "3", lc "500 3 Boom", none, none, none⟩
    (lc "ERROR") (by decide) (by decide) (by decide)

/-! ## C1/C7 — the monitor-results comparison

The handler threads state through the comparison loop: `_get_cached_error_def`
populates the in-process caches, and `get_error_summary_info` prunes
`<K>:versions` members.  The lemmas below characterise every read against
the *pre-call* state, via a frame predicate describing exactly what the
loop may touch. -/

/-- The cached-def value a cache miss recreates from Redis. -/
def redisCached (s : Store) (k : List Char) : Option CachedDef :=
  (s.errorDefs k).bind fun d => (levelReadableOf d.level).map fun lr => ⟨d, lr⟩

/-- What `_get_cached_error_def` returns (cache first, then Redis). -/
def cacheLookup (st : St) (k : List Char) : Option CachedDef :=
  match st.defCache k with
  | some c => some c
  | none => redisCached st.redis k

/-- Frame predicate: going from `st` to `st'`, the handler may remove
members of `<K>:versions` sorted sets for `K ∈ Ks`, touches no other
Redis datum, and only extends the def cache coherently with values
recreated from Redis. -/
def entFrame (Ks : List (List Char)) (st st' : St) : Prop :=
  (∀ k', (∀ K ∈ Ks, k' ≠ K ++ lc ":versions") →
    st'.redis.zsets k' = st.redis.zsets k') ∧
  st'.redis.errorDefs = st.redis.errorDefs ∧
  st'.redis.errordefIds = st.redis.errordefIds ∧
  st'.redis.hashes = st.redis.hashes ∧
  st'.redis.stackMsgs = st.redis.stackMsgs ∧
  st'.redis.strs = st.redis.strs ∧
  st'.redis.ssets = st.redis.ssets ∧
  st'.redis.routeCounts = st.redis.routeCounts ∧
  (∀ k, st'.defCache k = st.defCache k ∨
    (st.defCache k = none ∧ st'.defCache k = redisCached st.redis k))

theorem entFrame_refl (Ks : List (List Char)) (st : St) : entFrame Ks st st :=
  ⟨fun _ _ => rfl, rfl, rfl, rfl, rfl, rfl, rfl, rfl, fun _ => Or.inl rfl⟩

theorem entFrame_mono {Ks Ks' : List (List Char)} {st st' : St}
    (hsub : ∀ K ∈ Ks, K ∈ Ks') (h : entFrame Ks st st') : entFrame Ks' st st' :=
  ⟨fun k' hk' => h.1 k' (fun K hK => hk' K (hsub K hK)), h.2.1, h.2.2.1, h.2.2.2.1,
   h.2.2.2.2.1, h.2.2.2.2.2.1, h.2.2.2.2.2.2.1, h.2.2.2.2.2.2.2.1, h.2.2.2.2.2.2.2.2⟩

theorem redisCached_congr {s s' : Store} (h : s'.errorDefs = s.errorDefs) :
    ∀ k, redisCached s' k = redisCached s k := by
  intro k
  unfold redisCached
  rw [h]

theorem entFrame_trans {K1 K2 : List (List Char)} {st st1 st2 : St}
    (h1 : entFrame K1 st st1) (h2 : entFrame K2 st1 st2) :
    entFrame (K1 ++ K2) st st2 := by
  obtain ⟨hz1, hed1, hei1, hh1, hsm1, hst1, hss1, hrc1, hdc1⟩ := h1
  obtain ⟨hz2, hed2, hei2, hh2, hsm2, hst2, hss2, hrc2, hdc2⟩ := h2
  refine ⟨?_, hed2.trans hed1, hei2.trans hei1, hh2.trans hh1, hsm2.trans hsm1,
    hst2.trans hst1, hss2.trans hss1, hrc2.trans hrc1, ?_⟩
  · intro k' hk'
    have e2 := hz2 k' (fun K hK => hk' K (List.mem_append_right _ hK))
    have e1 := hz1 k' (fun K hK => hk' K (List.mem_append_left _ hK))
    rw [e2, e1]
  · intro k
    rcases hdc2 k with h2' | ⟨h2n, h2v⟩
    · rw [h2']
      exact hdc1 k
    · rcases hdc1 k with h1' | ⟨h1n, h1v⟩
      · rw [h1'] at h2n
        exact Or.inr ⟨h2n, h2v.trans (redisCached_congr hed1 k)⟩
      · exact Or.inr ⟨h1n, h2v.trans (redisCached_congr hed1 k)⟩

/-- Transitivity specialised to the empty footprint. -/
theorem entFrame_trans0 {st st1 st2 : St} (h1 : entFrame [] st st1)
    (h2 : entFrame [] st1 st2) : entFrame [] st st2 := by
  have := entFrame_trans h1 h2
  simpa using this

theorem cacheLookup_frame {Ks : List (List Char)} {st st' : St}
    (h : entFrame Ks st st') : ∀ k, cacheLookup st' k = cacheLookup st k := by
  intro k
  unfold cacheLookup
  rcases h.2.2.2.2.2.2.2.2 k with h' | ⟨hn, hv⟩
  · rw [h']
    cases st.defCache k with
    | some c => rfl
    | none => exact redisCached_congr h.2.1 k
  · rw [hn, hv]
    cases hrc : redisCached st.redis k with
    | some c => rfl
    | none => simp [redisCached_congr h.2.1 k, hrc]

/-- `getCachedErrorDef` returns the pure lookup and only extends caches. -/
theorem getCachedErrorDef_ok {st : St} {k : List Char} {r : Option CachedDef}
    {st' : St} (h : getCachedErrorDef st k = .ok (r, st')) :
    r = cacheLookup st k ∧ entFrame [] st st' := by
  unfold getCachedErrorDef at h
  unfold cacheLookup
  cases hdc : st.defCache k with
  | some c =>
    simp only [hdc, Except.ok.injEq, Prod.mk.injEq] at h
    exact ⟨h.1.symm, h.2 ▸ entFrame_refl [] st⟩
  | none =>
    simp only [hdc] at h
    cases hed : st.redis.errorDefs k with
    | none =>
      simp only [hed, Except.ok.injEq, Prod.mk.injEq] at h
      refine ⟨?_, h.2 ▸ entFrame_refl [] st⟩
      rw [← h.1]
      unfold redisCached
      rw [hed]
      rfl
    | some d =>
      simp only [hed] at h
      cases hlr : levelReadableOf d.level with
      | none =>
        simp only [hlr] at h
        exact Except.noConfusion h
      | some lr =>
        simp only [hlr, Except.ok.injEq, Prod.mk.injEq] at h
        have hred : redisCached st.redis k = some ⟨d, lr⟩ := by
          unfold redisCached
          rw [hed]
          simp [hlr]
        refine ⟨by rw [← h.1, hred], ?_⟩
        rw [← h.2]
        refine ⟨fun _ _ => rfl, rfl, rfl, rfl, rfl, rfl, rfl, rfl, ?_⟩
        intro k0
        by_cases hk0 : k0 = k
        · subst hk0
          exact Or.inr ⟨hdc, by simp [updFn, hred]⟩
        · exact Or.inl (by simp [updFn, hk0])



/-- `zrevrangeWS` depends only on the zset stored at its key. -/
theorem zrevrangeWS_congr {s s' : Store} {key : List Char}
    (h : s'.zsets key = s.zsets key) (start stop : ℤ) :
    zrevrangeWS s' key start stop = zrevrangeWS s key start stop := by
  unfold zrevrangeWS
  rw [h]

/-- The `unique_errors_by_minute` zset key of a version's minute cell. -/
def ueKey (version : List Char) (minute : ℤ) : List Char :=
  lc "ver:MON_" ++ version ++ lc ":unique_errors_by_minute:" ++ intToChars minute

/-- Pure denotation of `get_monitoring_errors` against one fixed state. -/
def monErrorsPure (st : St) (version : List Char) (minute : ℤ) :
    List (CachedDef × ℚ) :=
  (zrevrangeWS st.redis (ueKey version minute) 0 1000).filterMap
    fun p => (cacheLookup st p.1).map fun c => (c, p.2)

theorem cacheLookup_frame_eq {Ks : List (List Char)} {st st' : St}
    (h : entFrame Ks st st') : cacheLookup st' = cacheLookup st :=
  funext (cacheLookup_frame h)

theorem defsLoop_ok {st : St} {l : List (List Char × ℚ)}
    {pairs : List (Option CachedDef × ℚ)} {st' : St}
    (h : defsLoop st l = .ok (pairs, st')) :
    pairs = l.map (fun p => (cacheLookup st p.1, p.2)) ∧ entFrame [] st st' := by
  induction l generalizing st pairs with
  | nil =>
    simp only [defsLoop, Except.ok.injEq, Prod.mk.injEq] at h
    exact ⟨h.1.symm, h.2 ▸ entFrame_refl [] st⟩
  | cons p rest ih =>
    obtain ⟨k, c⟩ := p
    unfold defsLoop at h
    cases hg : getCachedErrorDef st k with
    | error e =>
      simp only [hg] at h
      exact Except.noConfusion h
    | ok oc =>
      obtain ⟨od, st1⟩ := oc
      simp only [hg] at h
      obtain ⟨hod, hfr1⟩ := getCachedErrorDef_ok hg
      cases hd : defsLoop st1 rest with
      | error e =>
        simp only [hd] at h
        exact Except.noConfusion h
      | ok tl =>
        obtain ⟨tail, st2⟩ := tl
        simp only [hd, Except.ok.injEq, Prod.mk.injEq] at h
        obtain ⟨h1, h2⟩ := h
        subst h2
        obtain ⟨htail, hfr2⟩ := ih hd
        refine ⟨?_, entFrame_trans0 hfr1 hfr2⟩
        rw [← h1, hod, htail, cacheLookup_frame_eq hfr1]
        simp

theorem getMonitoringErrors_ok {st : St} {v : List Char} {m : ℤ}
    {entries : List (CachedDef × ℚ)} {st' : St}
    (h : getMonitoringErrors st v m = .ok (entries, st')) :
    entries = monErrorsPure st v m ∧ entFrame [] st st' := by
  unfold getMonitoringErrors at h
  unfold monErrorsPure ueKey
  cases hd : defsLoop st (zrevrangeWS st.redis
      (lc "ver:MON_" ++ v ++ lc ":unique_errors_by_minute:" ++ intToChars m) 0 1000) with
  | error e =>
    simp only [hd] at h
    exact Except.noConfusion h
  | ok pr =>
    obtain ⟨pairs, st1⟩ := pr
    simp only [hd, Except.ok.injEq, Prod.mk.injEq] at h
    obtain ⟨hp, hfr⟩ := defsLoop_ok hd
    refine ⟨?_, h.2 ▸ hfr⟩
    rw [← h.1, hp, List.filterMap_map]
    rfl

/-- Under the empty footprint the pure monitoring errors are unchanged. -/
theorem monErrorsPure_frame {st st' : St} (h : entFrame [] st st') (v : List Char)
    (m : ℤ) : monErrorsPure st' v m = monErrorsPure st v m := by
  unfold monErrorsPure
  rw [zrevrangeWS_congr (h.1 (ueKey v m) (by simp)), cacheLookup_frame_eq h]


/-- Pure denotation of `version_counts_by_key` against one fixed state. -/
def countsPure (st : St) (minute : ℤ) (vs : List (List Char)) :
    List (List Char × List (List Char × ℚ)) :=
  vs.map fun v => (v, (monErrorsPure st v minute).map fun p => (p.1.errorDef.key, p.2))

theorem countsPure_frame {st st' : St} (h : entFrame [] st st') (minute : ℤ)
    (vs : List (List Char)) : countsPure st' minute vs = countsPure st minute vs := by
  unfold countsPure
  simp only [monErrorsPure_frame h]

theorem buildCountsLoop_ok {minute : ℤ} {st : St} {vs : List (List Char)}
    {counts : List (List Char × List (List Char × ℚ))} {st' : St}
    (h : buildCountsLoop minute st vs = .ok (counts, st')) :
    counts = countsPure st minute vs ∧ entFrame [] st st' := by
  induction vs generalizing st counts with
  | nil =>
    simp only [buildCountsLoop, Except.ok.injEq, Prod.mk.injEq] at h
    exact ⟨h.1.symm, h.2 ▸ entFrame_refl [] st⟩
  | cons v rest ih =>
    unfold buildCountsLoop at h
    cases hg : getMonitoringErrors st v minute with
    | error e =>
      simp only [hg] at h
      exact Except.noConfusion h
    | ok pr =>
      obtain ⟨entries, st1⟩ := pr
      simp only [hg] at h
      obtain ⟨hent, hfr1⟩ := getMonitoringErrors_ok hg
      cases hb : buildCountsLoop minute st1 rest with
      | error e =>
        simp only [hb] at h
        exact Except.noConfusion h
      | ok tl =>
        obtain ⟨tail, st2⟩ := tl
        simp only [hb, Except.ok.injEq, Prod.mk.injEq] at h
        obtain ⟨h1, h2⟩ := h
        subst h2
        obtain ⟨htail, hfr2⟩ := ih hb
        refine ⟨?_, entFrame_trans0 hfr1 hfr2⟩
        rw [← h1, hent, htail, countsPure_frame hfr1]
        rfl

/-- A `ZREM` of one member of `<k>:versions` satisfies the frame. -/
theorem entFrame_zrem (st : St) (k v : List Char) :
    entFrame [k] st { st with redis := st.redis.zremMember (k ++ lc ":versions") v } := by
  refine ⟨?_, rfl, rfl, rfl, rfl, rfl, rfl, rfl, fun _ => Or.inl rfl⟩
  intro k' hk'
  have hne : k' ≠ k ++ lc ":versions" := hk' k (by simp)
  simp [Store.zremMember, updFn, hne]

/-- `summaryLoop` prunes only `<k>:versions` and touches no cache. -/
theorem summaryLoop_ok {st : St} {k : List Char} {vl : List (List Char × ℚ)}
    {bhv : List BHV} {total : ℤ} {st' : St}
    (h : summaryLoop st k vl = .ok (bhv, total, st')) : entFrame [k] st st' := by
  induction vl generalizing st bhv total with
  | nil =>
    simp only [summaryLoop, Except.ok.injEq, Prod.mk.injEq] at h
    exact h.2.2 ▸ entFrame_refl [k] st
  | cons p rest ih =>
    obtain ⟨v, sc⟩ := p
    unfold summaryLoop at h
    by_cases hhs : st.redis.hashes (lc "ver:" ++ v ++ lc ":error:" ++ k ++ lc ":hours_seen") = []
    · rw [if_pos hhs] at h
      have hrec := ih h
      have hstep := entFrame_zrem st k v
      have := entFrame_trans hstep hrec
      exact entFrame_mono (by simp) this
    · rw [if_neg hhs] at h
      cases ht : hsTotal (st.redis.hashes (lc "ver:" ++ v ++ lc ":error:" ++ k ++ lc ":hours_seen")) with
      | none =>
        simp only [ht] at h
        exact Except.noConfusion h
      | some t =>
        simp only [ht] at h
        cases hs : summaryLoop st k rest with
        | error e =>
          simp only [hs] at h
          exact Except.noConfusion h
        | ok tr =>
          obtain ⟨tail, tailTotal, st2⟩ := tr
          simp only [hs, Except.ok.injEq, Prod.mk.injEq] at h
          obtain ⟨-, -, h3⟩ := h
          subst h3
          exact ih hs

/-- The versions key of an error. -/
def verKey (k : List Char) : List Char := k ++ lc ":versions"

/-- `get_error_summary_info` reports the *pre-state* members of
`<k>:versions` and prunes only that key. -/
theorem getErrorSummaryInfo_ok {st : St} {k : List Char} {info : SummaryInfo}
    {st' : St} (h : getErrorSummaryInfo st k = .ok (some info, st')) :
    info.versions = zrevrangeWS st.redis (verKey k) 0 (-1) ∧ entFrame [k] st st' := by
  unfold getErrorSummaryInfo at h
  cases hg : getCachedErrorDef st k with
  | error e =>
    simp only [hg] at h
    exact Except.noConfusion h
  | ok pr =>
    obtain ⟨oc, st1⟩ := pr
    obtain ⟨hoc, hfr1⟩ := getCachedErrorDef_ok hg
    cases oc with
    | none =>
      simp only [hg, Except.ok.injEq, Prod.mk.injEq] at h
      exact Option.noConfusion h.1
    | some c =>
      simp only [hg] at h
      cases hs : summaryLoop st1 k (zrevrangeWS st1.redis (k ++ lc ":versions") 0 (-1)) with
      | error e =>
        simp only [hs] at h
        exact Except.noConfusion h
      | ok tr =>
        obtain ⟨bhv, total, st2⟩ := tr
        simp only [hs, Except.ok.injEq, Prod.mk.injEq, Option.some.injEq] at h
        obtain ⟨h1, h2⟩ := h
        have hfrS : entFrame [k] st1 st2 := summaryLoop_ok hs
        have hfr : entFrame [k] st st2 := by
          have := entFrame_trans hfr1 hfrS
          exact entFrame_mono (by simp) this
        refine ⟨?_, h2 ▸ hfr⟩
        subst h1
        unfold verKey
        exact zrevrangeWS_congr (hfr1.1 (k ++ lc ":versions") (by simp)) 0 (-1)


/-- Was the error key ever seen under one of the requested versions
(plain or `MON_`-prefixed membership in `<K>:versions`), judged against
one fixed state? -/
def seenBefore (st : St) (origVs : List (List Char)) (K : List Char) : Bool :=
  origVs.any fun v =>
    ((zrevrangeWS st.redis (verKey K) 0 (-1)).map (·.1)).contains v ||
    ((zrevrangeWS st.redis (verKey K) 0 (-1)).map (·.1)).contains (lc "MON_" ++ v)

/-- The reference-version counts of one error key. -/
def refCounts (verifyVs : List (List Char))
    (countsByKey : List (List Char × List (List Char × ℚ))) (K : List Char) :
    List ℚ :=
  verifyVs.map fun v => (alGetLast ((alGet countsByKey v).getD []) K).getD 0

open Classical in
/-- The significance decision (and record) for one error entry, judged
against one fixed state: the loop body of `monitor_results` with its
state threading stripped. -/
noncomputable def sigOf (st : St) (origVs verifyVs : List (List Char))
    (countsByKey : List (List Char × List (List Char × ℚ))) (minute : ℤ)
    (e : CachedDef) (c : ℚ) : Option SigRecord :=
  if matchesBlacklist e.errorDef.title c then none
  else
    let ep := countIsElevatedProbability
      ((refCounts verifyVs countsByKey e.errorDef.key).map fun q => (q : ℝ)) (c : ℝ)
    if (0.9995 : ℝ) ≤ ep.2 then
      if c = 1 then none
      else if c < 5 ∧ seenBefore st origVs e.errorDef.key then none
      else some ⟨e.errorDef.key, (pyInt e.errorDef.status).getD 0,
        (levelReadableOf e.errorDef.level).getD [], e.errorDef.title, minute, c,
        ep.1, ep.2⟩
    else none

theorem verKey_ne {K K' : List Char} (h : K ≠ K') :
    verKey K ≠ K' ++ lc ":versions" := by
  unfold verKey
  intro he
  exact h (List.append_left_injective (lc ":versions") he)

theorem processOne_ok {st0 st : St} {Ks : List (List Char)}
    {origVs verifyVs : List (List Char)}
    {CBK : List (List Char × List (List Char × ℚ))} {minute : ℤ}
    {e : CachedDef} {c : ℚ} {r? : Option SigRecord} {st' : St}
    (hfr : entFrame Ks st0 st)
    (hK : e.errorDef.key ∉ Ks)
    (h : processOne st origVs verifyVs CBK minute e c = .ok (r?, st')) :
    r? = sigOf st0 origVs verifyVs CBK minute e c ∧
      entFrame (Ks ++ [e.errorDef.key]) st0 st' := by
  have hmono : entFrame (Ks ++ [e.errorDef.key]) st0 st :=
    entFrame_mono (fun K hKm => List.mem_append_left _ hKm) hfr
  have hzs : st.redis.zsets (verKey e.errorDef.key)
      = st0.redis.zsets (verKey e.errorDef.key) :=
    hfr.1 (verKey e.errorDef.key) (fun K' hK' => verKey_ne (fun heq => hK (heq ▸ hK')))
  unfold processOne at h
  unfold sigOf refCounts
  by_cases hbl : matchesBlacklist e.errorDef.title c = true
  · rw [if_pos hbl] at h ⊢
    simp only [Except.ok.injEq, Prod.mk.injEq] at h
    exact ⟨h.1.symm, h.2 ▸ hmono⟩
  · rw [if_neg hbl] at h ⊢
    dsimp only at h ⊢
    by_cases hpr : (0.9995 : ℝ) ≤ (countIsElevatedProbability
        ((verifyVs.map fun v =>
          (alGetLast ((alGet CBK v).getD []) e.errorDef.key).getD 0).map
            fun q => (q : ℝ)) (c : ℝ)).2
    · rw [if_pos hpr] at h ⊢
      by_cases hc1 : c = 1
      · rw [if_pos hc1] at h ⊢
        simp only [Except.ok.injEq, Prod.mk.injEq] at h
        exact ⟨h.1.symm, h.2 ▸ hmono⟩
      · rw [if_neg hc1] at h ⊢
        by_cases hc5 : c < 5
        · rw [if_pos hc5] at h
          cases hgs : getErrorSummaryInfo st e.errorDef.key with
          | error err =>
            simp only [hgs] at h
            exact Except.noConfusion h
          | ok pr =>
            obtain ⟨oinfo, st1⟩ := pr
            cases oinfo with
            | none =>
              simp only [hgs] at h
              exact Except.noConfusion h
            | some info =>
              simp only [hgs] at h
              obtain ⟨hver, hfrS⟩ := getErrorSummaryInfo_ok hgs
              have hframe1 : entFrame (Ks ++ [e.errorDef.key]) st0 st1 :=
                entFrame_trans hfr hfrS
              rw [hver, zrevrangeWS_congr hzs] at h
              by_cases hsn : (origVs.any fun v =>
                  ((zrevrangeWS st0.redis (verKey e.errorDef.key) 0 (-1)).map
                    (·.1)).contains v ||
                  ((zrevrangeWS st0.redis (verKey e.errorDef.key) 0 (-1)).map
                    (·.1)).contains (lc "MON_" ++ v)) = true
              · rw [if_pos hsn] at h
                simp only [Except.ok.injEq, Prod.mk.injEq] at h
                rw [if_pos ⟨hc5, hsn⟩]
                exact ⟨h.1.symm, h.2 ▸ hframe1⟩
              · rw [if_neg hsn] at h
                rw [if_neg (fun hand => hsn hand.2)]
                cases hpi : pyInt e.errorDef.status with
                | none =>
                  simp only [hpi] at h
                  exact Except.noConfusion h
                | some si =>
                  cases hlv : levelReadableOf e.errorDef.level with
                  | none =>
                    simp only [hpi, hlv] at h
                    exact Except.noConfusion h
                  | some lvl =>
                    simp only [hpi, hlv, Except.ok.injEq, Prod.mk.injEq] at h
                    refine ⟨?_, h.2 ▸ hframe1⟩
                    rw [← h.1]
                    rfl
        · rw [if_neg hc5] at h
          rw [if_neg (fun hand => hc5 hand.1)]
          cases hpi : pyInt e.errorDef.status with
          | none =>
            simp only [hpi] at h
            exact Except.noConfusion h
          | some si =>
            cases hlv : levelReadableOf e.errorDef.level with
            | none =>
              simp only [hpi, hlv] at h
              exact Except.noConfusion h
            | some lvl =>
              simp only [hpi, hlv, Except.ok.injEq, Prod.mk.injEq] at h
              refine ⟨?_, h.2 ▸ hmono⟩
              rw [← h.1]
              rfl
    · rw [if_neg hpr] at h ⊢
      simp only [Except.ok.injEq, Prod.mk.injEq] at h
      exact ⟨h.1.symm, h.2 ▸ hmono⟩


theorem processEntries_ok {origVs verifyVs : List (List Char)}
    {CBK : List (List Char × List (List Char × ℚ))} {minute : ℤ} {st0 : St}
    {entries : List (CachedDef × ℚ)} :
    ∀ {Ks : List (List Char)} {st : St} {recs : List SigRecord} {st' : St},
    entFrame Ks st0 st →
    (∀ q ∈ entries, q.1.errorDef.key ∉ Ks) →
    (entries.map fun q => q.1.errorDef.key).Nodup →
    processEntries origVs verifyVs CBK minute st entries = .ok (recs, st') →
    recs = entries.filterMap
      (fun q => sigOf st0 origVs verifyVs CBK minute q.1 q.2) := by
  induction entries with
  | nil =>
    intro Ks st recs st' hfr hnin hnd h
    simp only [processEntries, Except.ok.injEq, Prod.mk.injEq] at h
    simp [← h.1]
  | cons pc rest ih =>
    intro Ks st recs st' hfr hnin hnd h
    obtain ⟨e, c⟩ := pc
    unfold processEntries at h
    cases hp1 : processOne st origVs verifyVs CBK minute e c with
    | error err =>
      simp only [hp1] at h
      exact Except.noConfusion h
    | ok pr =>
      obtain ⟨rr, st1⟩ := pr
      simp only [hp1] at h
      obtain ⟨hr, hfr1⟩ := processOne_ok hfr (hnin (e, c) (by simp)) hp1
      cases hrest : processEntries origVs verifyVs CBK minute st1 rest with
      | error err =>
        simp only [hrest] at h
        exact Except.noConfusion h
      | ok tl =>
        obtain ⟨recs2, st2⟩ := tl
        simp only [hrest, Except.ok.injEq, Prod.mk.injEq] at h
        obtain ⟨h1, h2⟩ := h
        have hnin' : ∀ q ∈ rest, q.1.errorDef.key ∉ Ks ++ [e.errorDef.key] := by
          intro q hq
          simp only [List.mem_append, List.mem_singleton]
          rintro (hin | heq)
          · exact hnin q (List.mem_cons_of_mem _ hq) hin
          · exact (List.nodup_cons.mp hnd).1 (List.mem_map.mpr ⟨q, hq, heq⟩)
        have hnd' : (rest.map fun q => q.1.errorDef.key).Nodup :=
          (List.nodup_cons.mp hnd).2
        have htail := ih hfr1 hnin' hnd' hrest
        rw [← h1, hr, htail, List.filterMap_cons]
        dsimp only
        cases sigOf st0 origVs verifyVs CBK minute e c <;> rfl

/-- The reference versions actually used: those with recorded data. -/
def verifyOf (st : St) (p : List Char) (minute : ℤ) : List (List Char) :=
  (p.splitOn ',').filter fun v => checkMonitoringDataReceived st v minute

/-- `monitor_results` returns exactly the significance-filtered errors of
the candidate's minute cell, all judged against the pre-request state. -/
theorem monitorResults_ok {st : St} {versionId : List Char} {minute : ℤ}
    {p : List Char} {recs : List SigRecord} {st' : St}
    (hp : ¬p = [])
    (hnd : ((monErrorsPure st versionId minute).map fun q => q.1.errorDef.key).Nodup)
    (h : monitorResults st versionId minute (some p) = .ok (.results recs, st')) :
    recs = (monErrorsPure st versionId minute).filterMap
      (fun q => sigOf st (p.splitOn ',') (verifyOf st p minute)
        (countsPure st minute (verifyOf st p minute)) minute q.1 q.2) := by
  unfold monitorResults at h
  dsimp only at h
  rw [if_neg hp] at h
  unfold verifyOf
  cases hb : buildCountsLoop minute st
      ((p.splitOn ',').filter fun v => checkMonitoringDataReceived st v minute) with
  | error e =>
    simp only [hb] at h
    exact Except.noConfusion h
  | ok pr =>
    obtain ⟨CBK, st1⟩ := pr
    simp only [hb] at h
    obtain ⟨hcbk, hfr1⟩ := buildCountsLoop_ok hb
    cases hm : getMonitoringErrors st1 versionId minute with
    | error e =>
      simp only [hm] at h
      exact Except.noConfusion h
    | ok pr2 =>
      obtain ⟨entries, st2⟩ := pr2
      simp only [hm] at h
      obtain ⟨hent, hfr2⟩ := getMonitoringErrors_ok hm
      have hentS : entries = monErrorsPure st versionId minute := by
        rw [hent, monErrorsPure_frame hfr1]
      cases hpe : processEntries (p.splitOn ',')
          ((p.splitOn ',').filter fun v => checkMonitoringDataReceived st v minute)
          CBK minute st2 entries with
      | error e =>
        simp only [hpe] at h
        exact Except.noConfusion h
      | ok tl =>
        obtain ⟨recs0, st3⟩ := tl
        simp only [hpe, Except.ok.injEq, Prod.mk.injEq, ResultsResp.results.injEq] at h
        have hfr : entFrame [] st st2 := entFrame_trans0 hfr1 hfr2
        have hrecs := processEntries_ok hfr
          (fun q _ => List.not_mem_nil q.1.errorDef.key)
          (hentS ▸ hnd) hpe
        rw [← h.1, hrecs, hentS, hcbk]

theorem sigOf_some_key {st : St} {origVs verifyVs : List (List Char)}
    {CBK : List (List Char × List (List Char × ℚ))} {minute : ℤ}
    {e : CachedDef} {c : ℚ} {r : SigRecord}
    (h : sigOf st origVs verifyVs CBK minute e c = some r) :
    r.key = e.errorDef.key ∧ r.monitorCount = c := by
  unfold sigOf at h
  by_cases hbl : matchesBlacklist e.errorDef.title c = true
  · rw [if_pos hbl] at h
    exact Option.noConfusion h
  · rw [if_neg hbl] at h
    dsimp only at h
    by_cases hpr : (0.9995 : ℝ) ≤ (countIsElevatedProbability
        ((refCounts verifyVs CBK e.errorDef.key).map fun q => (q : ℝ)) (c : ℝ)).2
    · rw [if_pos hpr] at h
      by_cases hc1 : c = 1
      · rw [if_pos hc1] at h
        exact Option.noConfusion h
      · rw [if_neg hc1] at h
        by_cases hcs : c < 5 ∧ seenBefore st origVs e.errorDef.key = true
        · rw [if_pos hcs] at h
          exact Option.noConfusion h
        · rw [if_neg hcs] at h
          rw [← Option.some.injEq .. |>.mp h]
          exact ⟨rfl, rfl⟩
    · rw [if_neg hpr] at h
      exact Option.noConfusion h

theorem sigOf_isSome_iff (st : St) (origVs verifyVs : List (List Char))
    (CBK : List (List Char × List (List Char × ℚ))) (minute : ℤ)
    (e : CachedDef) (c : ℚ) :
    (sigOf st origVs verifyVs CBK minute e c).isSome = true ↔
      (matchesBlacklist e.errorDef.title c = false ∧
       (0.9995 : ℝ) ≤ (countIsElevatedProbability
         ((refCounts verifyVs CBK e.errorDef.key).map fun q => (q : ℝ)) (c : ℝ)).2 ∧
       c ≠ 1 ∧
       (c < 5 → seenBefore st origVs e.errorDef.key = false)) := by
  unfold sigOf
  by_cases hbl : matchesBlacklist e.errorDef.title c = true
  · rw [if_pos hbl]
    simp [hbl]
  · rw [if_neg hbl]
    dsimp only
    by_cases hpr : (0.9995 : ℝ) ≤ (countIsElevatedProbability
        ((refCounts verifyVs CBK e.errorDef.key).map fun q => (q : ℝ)) (c : ℝ)).2
    · rw [if_pos hpr]
      by_cases hc1 : c = 1
      · rw [if_pos hc1]
        simp [hc1]
      · rw [if_neg hc1]
        by_cases hcs : c < 5 ∧ seenBefore st origVs e.errorDef.key = true
        · rw [if_pos hcs]
          simp only [Option.isSome_none, Bool.false_eq_true, false_iff]
          rintro ⟨-, -, -, himp⟩
          rw [himp hcs.1] at hcs
          exact Bool.noConfusion hcs.2
        · rw [if_neg hcs]
          simp only [Option.isSome_some, true_iff]
          refine ⟨Bool.eq_false_iff.mpr hbl, hpr, hc1, ?_⟩
          intro hc5
          by_contra hb
          exact hcs ⟨hc5, Bool.not_eq_false _ |>.mp hb⟩
    · rw [if_neg hpr]
      simp only [Option.isSome_none, Bool.false_eq_true, false_iff]
      rintro ⟨-, hpr2, -⟩
      exact hpr hpr2


/-- C1: the amended significance criterion.  For every successful call and
every error of the candidate minute cell (keys distinct, as zset members
are), membership in the returned list is equivalent to: the title does
NOT match the error blacklist at the error count (the conjunct missing
from the claim), the elevation probability from the recorded reference
versions is at least 0.9995, the count is not 1, and a count below 5
requires the key never seen under any requested version. -/
theorem C1_monitor_significance (st : St) (versionId : List Char) (minute : ℤ)
    (p : List Char) {recs : List SigRecord} {st' : St}
    (hp : ¬p = [])
    (hnd : ((monErrorsPure st versionId minute).map fun q => q.1.errorDef.key).Nodup)
    (h : monitorResults st versionId minute (some p) = .ok (.results recs, st')) :
    ∀ e c, (e, c) ∈ monErrorsPure st versionId minute →
      ((∃ r ∈ recs, r.key = e.errorDef.key) ↔
        (matchesBlacklist e.errorDef.title c = false ∧
         (0.9995 : ℝ) ≤ (countIsElevatedProbability
           ((refCounts (verifyOf st p minute)
             (countsPure st minute (verifyOf st p minute)) e.errorDef.key).map
               fun q => (q : ℝ)) (c : ℝ)).2 ∧
         c ≠ 1 ∧
         (c < 5 → seenBefore st (p.splitOn ',') e.errorDef.key = false))) := by
  intro e c hmem
  rw [monitorResults_ok hp hnd h]
  rw [← sigOf_isSome_iff st (p.splitOn ',') (verifyOf st p minute)
    (countsPure st minute (verifyOf st p minute)) minute e c]
  constructor
  · rintro ⟨r, hr, hkey⟩
    obtain ⟨q, hq, hsig⟩ := List.mem_filterMap.mp hr
    obtain ⟨hqkey, -⟩ := sigOf_some_key hsig
    have hqe : q = (e, c) :=
      List.inj_on_of_nodup_map hnd hq hmem (hqkey.symm.trans hkey)
    rw [hqe] at hsig
    dsimp only at hsig
    rw [hsig]
    rfl
  · intro hcond
    obtain ⟨r, hr⟩ := Option.isSome_iff_exists.mp hcond
    exact ⟨r, List.mem_filterMap.mpr ⟨(e, c), hmem, hr⟩, (sigOf_some_key hr).1⟩

/-! The counterexample state: one blacklisted error, observed 50 times in
the candidate minute cell; the one reference version has recorded (empty)
data. -/

def cexMonDef : ErrorDef :=
  ⟨lc "cafebabe", lc "Exceeded soft private memory limit", lc "500", lc "3",
   lc "x", none, none, none⟩

def cexMonCached : CachedDef := ⟨cexMonDef, lc "ERROR"⟩

def cexMonStore : Store :=
  { errorDefs := fun _ => none,
    errordefIds := fun _ _ => none,
    zsets := updFn (fun _ => [])
      (lc "ver:MON_cand:unique_errors_by_minute:0") [(lc "cafebabe", 50)],
    hashes := updFn (fun _ => []) (lc "ver:MON_v1:seen") [(lc "0", lc "1")],
    stackMsgs := fun _ => [],
    strs := fun _ => none,
    ssets := fun _ => [],
    routeCounts := fun _ => none }

def cexMonSt : St :=
  { redis := cexMonStore,
    defCache := updFn (fun _ => none) (lc "cafebabe") (some cexMonCached),
    idCache := fun _ _ => none }

theorem poissonCdf_fifty_one : (0.9995 : ℝ) ≤ poissonCdf 50 1 := by
  unfold poissonCdf
  rw [if_neg (by norm_num)]
  refine le_trans ?_ (Finset.sum_le_sum_of_subset_of_nonneg
    (Finset.range_subset.mpr (by decide : 10 ≤ Int.toNat 50 + 1))
    (by intro i hi his; positivity))
  have hsum : ∑ i ∈ Finset.range 10, Real.exp (-1) * (1:ℝ) ^ i / i.factorial
      = Real.exp (-1) * (986410 / 362880 : ℝ) := by
    simp [Finset.sum_range_succ, Nat.factorial]
    ring
  rw [hsum]
  have hpos : (0:ℝ) < Real.exp 1 := Real.exp_pos 1
  have hinv : (2.7182818286 : ℝ)⁻¹ < Real.exp (-1) := by
    rw [Real.exp_neg]
    exact inv_strictAnti₀ hpos Real.exp_one_lt_d9
  refine le_trans ?_ (mul_le_mul_of_nonneg_right hinv.le (by norm_num))
  norm_num

theorem cexMonProb : (0.9995 : ℝ) ≤ (countIsElevatedProbability
    ((refCounts (verifyOf cexMonSt (lc "v1") 0)
      (countsPure cexMonSt 0 (verifyOf cexMonSt (lc "v1") 0))
      cexMonCached.errorDef.key).map fun q => (q : ℝ)) ((50 : ℚ) : ℝ)).2 := by
  have h1 : refCounts (verifyOf cexMonSt (lc "v1") 0)
      (countsPure cexMonSt 0 (verifyOf cexMonSt (lc "v1") 0))
      cexMonCached.errorDef.key = [0] := rfl
  rw [h1]
  have h2 : (([0] : List ℚ).map fun q => (q : ℝ)) = [0] := by norm_num
  rw [h2]
  unfold countIsElevatedProbability
  rw [if_neg (by simp)]
  dsimp only
  have hmean : (List.sum [(0:ℝ)]) / (([(0:ℝ)].length : ℕ) : ℝ) = 0 := by simp
  rw [hmean]
  rw [if_neg (by push_cast; norm_num)]
  have hmax : max (0:ℝ) 1 = 1 := max_eq_right zero_le_one
  rw [hmax]
  have hfloor : ⌊((50 : ℚ) : ℝ)⌋ = 50 := by
    rw [show ((50 : ℚ) : ℝ) = (50 : ℝ) by norm_num]
    norm_num
  rw [hfloor]
  exact poissonCdf_fifty_one

/-- C1 counterexample: in `cexMonSt`, the candidate minute cell holds one
error with count 50; the elevation probability is ≥ 0.9995 and the count
is ≥ 5, yet the returned significant-error list does not contain its key,
because its title matches the error blacklist (count 50 ≤ threshold 100),
a condition the claim omits. -/
theorem C1_counterexample :
    ∃ recs st',
      monitorResults cexMonSt (lc "cand") 0 (some (lc "v1")) =
        .ok (.results recs, st') ∧
      (cexMonCached, 50) ∈ monErrorsPure cexMonSt (lc "cand") 0 ∧
      (0.9995 : ℝ) ≤ (countIsElevatedProbability
        ((refCounts (verifyOf cexMonSt (lc "v1") 0)
          (countsPure cexMonSt 0 (verifyOf cexMonSt (lc "v1") 0))
          cexMonCached.errorDef.key).map fun q => (q : ℝ)) ((50 : ℚ) : ℝ)).2 ∧
      (5 : ℚ) ≤ 50 ∧
      ¬∃ r ∈ recs, r.key = cexMonCached.errorDef.key :=
  ⟨[], cexMonSt, rfl, by decide, cexMonProb, by norm_num, by simp⟩

theorem C1_witness :
    (∃ r ∈ ([] : List SigRecord), r.key = cexMonCached.errorDef.key) ↔
      (matchesBlacklist cexMonCached.errorDef.title 50 = false ∧
       (0.9995 : ℝ) ≤ (countIsElevatedProbability
         ((refCounts (verifyOf cexMonSt (lc "v1") 0)
           (countsPure cexMonSt 0 (verifyOf cexMonSt (lc "v1") 0))
           cexMonCached.errorDef.key).map fun q => (q : ℝ)) ((50 : ℚ) : ℝ)).2 ∧
       (50 : ℚ) ≠ 1 ∧
       ((50 : ℚ) < 5 →
         seenBefore cexMonSt ((lc "v1").splitOn ',') cexMonCached.errorDef.key
           = false)) :=
  C1_monitor_significance cexMonSt (lc "cand") 0 (lc "v1") (by decide) (by decide)
    rfl cexMonCached 50 (by decide)

/-- C7: `monitor_results` returns 400 for an absent or empty
`verify_versions` parameter, and on success the comparison is computed
with the reference counts of exactly the listed versions that have
recorded data for the minute (`verifyOf` filters by
`check_monitoring_data_received`): versions without data are dropped
without raising. -/
theorem C7_verify_versions_handling (st : St) (versionId : List Char) (minute : ℤ)
    (p : List Char) {recs : List SigRecord} {st' : St}
    (hp : ¬p = [])
    (hnd : ((monErrorsPure st versionId minute).map fun q => q.1.errorDef.key).Nodup)
    (h : monitorResults st versionId minute (some p) = .ok (.results recs, st')) :
    monitorResults st versionId minute none = .ok (.badRequest, st) ∧
    monitorResults st versionId minute (some []) = .ok (.badRequest, st) ∧
    verifyOf st p minute =
      (p.splitOn ',').filter (fun v => checkMonitoringDataReceived st v minute) ∧
    recs = (monErrorsPure st versionId minute).filterMap
      (fun q => sigOf st (p.splitOn ',') (verifyOf st p minute)
        (countsPure st minute (verifyOf st p minute)) minute q.1 q.2) :=
  ⟨rfl, rfl, rfl, monitorResults_ok hp hnd h⟩

theorem C7_witness :
    monitorResults cexMonSt (lc "cand") 0 none = .ok (.badRequest, cexMonSt) ∧
    monitorResults cexMonSt (lc "cand") 0 (some []) = .ok (.badRequest, cexMonSt) ∧
    verifyOf cexMonSt (lc "v1") 0 =
      ((lc "v1").splitOn ',').filter
        (fun v => checkMonitoringDataReceived cexMonSt v 0) ∧
    ([] : List SigRecord) = (monErrorsPure cexMonSt (lc "cand") 0).filterMap
      (fun q => sigOf cexMonSt ((lc "v1").splitOn ',') (verifyOf cexMonSt (lc "v1") 0)
        (countsPure cexMonSt 0 (verifyOf cexMonSt (lc "v1") 0)) 0 q.1 q.2) :=
  C7_verify_versions_handling cexMonSt (lc "cand") 0 (lc "v1") (by decide)
    (by decide) rfl

end EMDB
